import Mathlib

/-!
Verification development for the go-incremental library (wcharczuk/go-incremental).

The development shallowly embeds the parts of the source the claims are about:

* the height-indexed recompute heap (source file: the recomputeHeap type and its
  methods, named here RecomputeHeap);
* the bind node recompute protocol (source file: the bindIncr type, its Stabilize
  and Link methods);
* the observation bookkeeping and the top-level stabilize driver.  The Graph,
  Node, Var and observe/unobserve internals of the repository are not part of the
  sources available here (only their tests and callers are), so those components
  are modelled from the specification text; every such definition carries a doc
  comment starting with the words Modelled from the spec.

Go machine integers never overflow in the scenarios considered (heights and
stabilization numbers are small), so they are embedded as Nat.
-/

namespace Incr

/-- One entry of a recompute-heap bucket.  It mirrors the Go struct
recomputeHeapItem: the node (represented by its identifier, since the heap only
ever reads the id and height of the node) together with the height recorded at
insertion time. -/
structure HeapItem where
  id : Nat
  height : Nat
deriving DecidableEq, Repr

/-- Shallow embedding of the Go recomputeHeap struct.  Buckets are lists in
insertion order (the Go doubly-linked list pushes at the tail and pops at the
head); the Go map from identifier to list item is embedded as an association
list of the stored items (the Go map is unordered, and no heap operation
iterates it, so the list order is unobservable).  The mutex is irrelevant to a
sequential embedding and is dropped. -/
structure RecomputeHeap where
  minHeight : Nat
  maxHeight : Nat
  heights : List (List HeapItem)
  lookup : List HeapItem
deriving DecidableEq, Repr

namespace RecomputeHeap

/-- Constructor newRecomputeHeap: pre-allocated empty buckets. -/
def mkNew (initialHeights : Nat) : RecomputeHeap :=
  { minHeight := 0, maxHeight := 0
    heights := List.replicate initialHeights []
    lookup := [] }

/-- Reading a bucket; a missing index behaves like the nil Go list (all reads on
a nil list in the source see an empty list). -/
def getBucket (rh : RecomputeHeap) (i : Nat) : List HeapItem :=
  rh.heights.getD i []

/-- Go map lookup rh.lookup[id]. -/
def lookupFind (rh : RecomputeHeap) (id : Nat) : Option HeapItem :=
  rh.lookup.find? (fun it => it.id == id)

/-- Go Len(): the size of the lookup map. -/
def lenH (rh : RecomputeHeap) : Nat :=
  rh.lookup.length

/-- Go maybeUpdateMinMaxHeights. -/
def maybeUpdateMinMaxHeights (rh : RecomputeHeap) (newHeight : Nat) : RecomputeHeap :=
  if rh.lookup.length = 0 then
    { rh with minHeight := newHeight, maxHeight := newHeight }
  else
    let rh1 := if rh.minHeight > newHeight then { rh with minHeight := newHeight } else rh
    if rh1.maxHeight < newHeight then { rh1 with maxHeight := newHeight } else rh1

/-- Go maybeAddNewHeights: grow the bucket array so that newHeight is a valid
index. -/
def maybeAddNewHeights (rh : RecomputeHeap) (newHeight : Nat) : RecomputeHeap :=
  if rh.heights.length ≤ newHeight then
    { rh with heights := rh.heights ++ List.replicate (newHeight + 1 - rh.heights.length) [] }
  else rh

/-- Go addNodeUnsafe: push the node at the tail of the bucket for its current
height and (re)bind the lookup entry.  The Go map assignment replaces any
existing entry for the id, which the filter-and-append models. -/
def addNode (rh : RecomputeHeap) (id h : Nat) : RecomputeHeap :=
  let rh1 := rh.maybeUpdateMinMaxHeights h
  let rh2 := rh1.maybeAddNewHeights h
  { rh2 with
    heights := rh2.heights.set h (rh2.getBucket h ++ [⟨id, h⟩])
    lookup := rh2.lookup.filter (fun x => x.id != id) ++ [⟨id, h⟩] }

/-- The scan loop inside Go nextMinHeightUnsafe: return the first index in the
list whose bucket is non-empty, defaulting to 0 (the Go variable next keeps its
zero value when the loop never breaks). -/
def scanMin (rh : RecomputeHeap) : List Nat → Nat
  | [] => 0
  | x :: xs => if (rh.getBucket x).isEmpty then rh.scanMin xs else x

/-- Go nextMinHeightUnsafe: 0 when the heap is empty, otherwise the first index
in minHeight..maxHeight with a non-empty bucket (0 when there is none). -/
def nextMinHeight (rh : RecomputeHeap) : Nat :=
  if rh.lookup.length = 0 then 0
  else rh.scanMin (List.range' rh.minHeight (rh.maxHeight + 1 - rh.minHeight))

/-- Go removeItemUnsafe: delete the lookup entry, drop the item from the bucket
recorded at insertion time, then advance minHeight when the removed item was the
last one at the current minHeight. -/
def removeItem (rh : RecomputeHeap) (it : HeapItem) : RecomputeHeap :=
  let rh1 : RecomputeHeap :=
    { rh with
      lookup := rh.lookup.filter (fun x => x.id != it.id)
      heights := rh.heights.set it.height
        ((rh.getBucket it.height).filter (fun x => x.id != it.id)) }
  if it.height == rh1.minHeight && (rh1.getBucket it.height).isEmpty then
    { rh1 with minHeight := rh1.nextMinHeight }
  else rh1

/-- Go addUnsafe for a single node (Add loops addUnsafe over its arguments):
remove the node first when it is already present, then insert it at its current
height. -/
def add (rh : RecomputeHeap) (id h : Nat) : RecomputeHeap :=
  match rh.lookupFind id with
  | some cur => (rh.removeItem cur).addNode id h
  | none => rh.addNode id h

/-- A sequence of Add calls. -/
def applyAdds (rh : RecomputeHeap) (ops : List (Nat × Nat)) : RecomputeHeap :=
  ops.foldl (fun s p => s.add p.1 p.2) rh

/-- Go RemoveMin: pop the head of the bucket at minHeight (returning the node),
delete its lookup entry, and advance minHeight when that bucket became empty;
return nil and change nothing when the bucket at minHeight is empty. -/
def removeMin (rh : RecomputeHeap) : Option Nat × RecomputeHeap :=
  match rh.getBucket rh.minHeight with
  | [] => (none, rh)
  | it :: rest =>
    let rh1 : RecomputeHeap :=
      { rh with
        heights := rh.heights.set rh.minHeight rest
        lookup := rh.lookup.filter (fun x => x.id != it.id) }
    let rh2 :=
      if (rh1.getBucket rh1.minHeight).isEmpty then
        { rh1 with minHeight := rh1.nextMinHeight }
      else rh1
    (some it.id, rh2)

/-- Go RemoveMinHeight: pop the whole bucket at minHeight, delete the popped
lookup entries, and recompute minHeight. -/
def removeMinHeight (rh : RecomputeHeap) : List Nat × RecomputeHeap :=
  let b := rh.getBucket rh.minHeight
  if b.isEmpty then ([], rh)
  else
    let rh1 : RecomputeHeap :=
      { rh with
        heights := rh.heights.set rh.minHeight []
        lookup := rh.lookup.filter (fun x => !(b.any (fun it => it.id == x.id))) }
    (b.map HeapItem.id, { rh1 with minHeight := rh1.nextMinHeight })

/-- Go Remove: O(1) removal through the lookup map. -/
def remove (rh : RecomputeHeap) (id : Nat) : Bool × RecomputeHeap :=
  match rh.lookupFind id with
  | none => (false, rh)
  | some it => (true, rh.removeItem it)

/-- Go fixUnsafe for one id (Fix loops over its arguments).  The Go code reads
the node's current height through the stored pointer; the embedding receives
that current height as the curHeight argument.  Note that, unlike
removeItemUnsafe, the source removes the item from its old bucket without
touching minHeight and without deleting the lookup entry (addNodeUnsafe then
overwrites it). -/
def fix (rh : RecomputeHeap) (id curHeight : Nat) : RecomputeHeap :=
  match rh.lookupFind id with
  | some it =>
    let rh1 : RecomputeHeap :=
      { rh with
        heights := rh.heights.set it.height
          ((rh.getBucket it.height).filter (fun x => x.id != id)) }
    rh1.addNode id curHeight
  | none => rh

/-- Number of occurrences of an id across all buckets. -/
def bucketCount (rh : RecomputeHeap) (id : Nat) : Nat :=
  ((List.range rh.heights.length).map
    (fun i => ((rh.getBucket i).filter (fun x => x.id == id)).length)).sum

/-- Number of occurrences of an id in the lookup map. -/
def lookupCount (rh : RecomputeHeap) (id : Nat) : Nat :=
  (rh.lookup.filter (fun x => x.id == id)).length

/-- The smallest bucket index whose bucket is non-empty, when one exists. -/
def smallestNonempty (rh : RecomputeHeap) : Option Nat :=
  ((List.range rh.heights.length).filter (fun i => !(rh.getBucket i).isEmpty)).head?

/-- Well-formedness of a heap state, as maintained by the source: lookup keys
are unique; every lookup entry sits in the bucket recorded at insertion time,
within the bucket array and within the minHeight..maxHeight window; every bucket
item is indexed at its recorded height and registered in the lookup map; bucket
ids are unique; and minHeight and maxHeight are valid bucket indices. -/
def WF (rh : RecomputeHeap) : Prop :=
  (rh.lookup.map HeapItem.id).Nodup ∧
  (∀ it ∈ rh.lookup, it.height < rh.heights.length ∧ it ∈ rh.getBucket it.height ∧
      rh.minHeight ≤ it.height ∧ it.height ≤ rh.maxHeight) ∧
  (∀ i < rh.heights.length, ∀ it ∈ rh.getBucket i, it.height = i ∧ rh.lookupFind it.id = some it) ∧
  (∀ i < rh.heights.length, ((rh.getBucket i).map HeapItem.id).Nodup) ∧
  0 < rh.heights.length ∧
  rh.minHeight < rh.heights.length ∧
  rh.maxHeight < rh.heights.length

instance (rh : RecomputeHeap) : Decidable (WF rh) := by
  unfold WF; infer_instance

end RecomputeHeap

/-! List-level helper lemmas used throughout the heap proofs. -/

theorem listGetD_set_self {α : Type} (l : List α) (i : Nat) (b d : α)
    (h : i < l.length) : (l.set i b).getD i d = b := by
  rw [List.getD_eq_getElem?_getD, List.getElem?_set_self h]
  rfl

theorem listGetD_set_ne {α : Type} (l : List α) (i j : Nat) (b d : α)
    (h : i ≠ j) : (l.set i b).getD j d = l.getD j d := by
  rw [List.getD_eq_getElem?_getD, List.getElem?_set_ne h, ← List.getD_eq_getElem?_getD]

theorem list_set_getD_self {α : Type} (l : List α) (i : Nat) (d : α)
    (h : i < l.length) : l.set i (l.getD i d) = l := by
  apply List.ext_getElem?
  intro j
  by_cases hij : i = j
  · subst hij
    rw [List.getElem?_set_self h, List.getD_eq_getElem?_getD,
      List.getElem?_eq_getElem h]
    rfl
  · rw [List.getElem?_set_ne hij]

theorem listGetD_append_replicate {α : Type} (l : List α) (k i : Nat) (d : α) :
    (l ++ List.replicate k d).getD i d = l.getD i d := by
  rw [List.getD_eq_getElem?_getD, List.getD_eq_getElem?_getD, List.getElem?_append]
  by_cases h : i < l.length
  · simp [h]
  · simp only [h, if_false, List.getElem?_replicate]
    have h2 : l[i]? = none := List.getElem?_eq_none (Nat.le_of_not_lt h)
    rw [h2]
    by_cases h3 : i - l.length < k <;> simp [h3]

theorem find?_filter_imp {α : Type} (l : List α) (p q : α → Bool)
    (himp : ∀ x, p x = true → q x = true) :
    (l.filter q).find? p = l.find? p := by
  induction l with
  | nil => rfl
  | cons x xs ih =>
    by_cases hp : p x
    · have hq := himp x hp
      simp [List.filter_cons, hq, List.find?_cons, hp]
    · by_cases hq : q x
      · simp [List.filter_cons, hq, List.find?_cons, hp, ih]
      · simp [List.filter_cons, hq, List.find?_cons, hp, ih]

theorem count_filter_eq_one_of_nodup {α : Type} (l : List α) (f : α → Nat) (x : α)
    (hnd : (l.map f).Nodup) (hx : x ∈ l) :
    (l.filter (fun y => f y == f x)).length = 1 := by
  induction l with
  | nil => cases hx
  | cons y ys ih =>
    have hnd2 : (ys.map f).Nodup := (List.nodup_cons.mp hnd).2
    have hy : f y ∉ ys.map f := (List.nodup_cons.mp hnd).1
    rcases List.mem_cons.mp hx with hxy | hxs
    · subst hxy
      have : ys.filter (fun z => f z == f x) = [] := by
        rw [List.filter_eq_nil_iff]
        intro a ha hfa
        exact hy (List.mem_map.mpr ⟨a, ha, eq_of_beq hfa⟩)
      simp [List.filter_cons, this]
    · have hne : (f y == f x) = false := by
        by_contra hc
        have heq : f y = f x := by
          have hb := Bool.not_eq_false (f y == f x) |>.mp hc
          exact eq_of_beq hb
        exact hy (heq ▸ List.mem_map.mpr ⟨x, hxs, rfl⟩)
      simp [List.filter_cons, hne, ih hnd2 hxs]

theorem sum_map_range_eq_zero (n : Nat) (f : Nat → Nat)
    (h0 : ∀ i < n, f i = 0) : ((List.range n).map f).sum = 0 := by
  apply List.sum_eq_zero
  intro x hx
  rcases List.mem_map.mp hx with ⟨i, hi, rfl⟩
  exact h0 i (List.mem_range.mp hi)

theorem sum_map_range_indicator (n j : Nat) (f : Nat → Nat) (hj : j < n)
    (h1 : f j = 1) (h0 : ∀ i < n, i ≠ j → f i = 0) :
    ((List.range n).map f).sum = 1 := by
  induction n with
  | zero => cases hj
  | succ m ih =>
    rw [List.range_succ, List.map_append, List.sum_append]
    by_cases hjm : j = m
    · subst hjm
      have : ((List.range j).map f).sum = 0 :=
        sum_map_range_eq_zero j f (fun i hi => h0 i (Nat.lt_succ_of_lt hi) (Nat.ne_of_lt hi))
      simp [this, h1]
    · have hjlt : j < m := Nat.lt_of_lt_of_le (Nat.lt_of_le_of_ne (Nat.lt_succ_iff.mp hj) hjm) (Nat.le_refl m)
      have hm : f m = 0 := h0 m (Nat.lt_succ_self m) (fun hc => hjm hc.symm)
      have := ih hjlt (fun i hi hne => h0 i (Nat.lt_succ_of_lt hi) hne)
      simp [this, hm]

namespace RecomputeHeap

/-! Scan-loop lemmas for nextMinHeight. -/

theorem scanMin_mem (rh : RecomputeHeap) (l : List Nat)
    (hex : ∃ y ∈ l, (rh.getBucket y).isEmpty = false) :
    rh.scanMin l ∈ l ∧ (rh.getBucket (rh.scanMin l)).isEmpty = false := by
  induction l with
  | nil => rcases hex with ⟨y, hy, _⟩; cases hy
  | cons x xs ih =>
    by_cases hx : (rh.getBucket x).isEmpty
    · have hex2 : ∃ y ∈ xs, (rh.getBucket y).isEmpty = false := by
        rcases hex with ⟨y, hy, hyne⟩
        rcases List.mem_cons.mp hy with rfl | hmem
        · rw [hx] at hyne; cases hyne
        · exact ⟨y, hmem, hyne⟩
      have := ih hex2
      simp only [scanMin, hx, if_true]
      exact ⟨List.mem_cons_of_mem x this.1, this.2⟩
    · simp only [scanMin, hx, if_false]
      exact ⟨List.mem_cons_self x xs, Bool.not_eq_true _ |>.mp hx⟩

theorem scanMin_le (rh : RecomputeHeap) (a n y : Nat)
    (hy : y ∈ List.range' a n) (hne : (rh.getBucket y).isEmpty = false) :
    rh.scanMin (List.range' a n) ≤ y := by
  induction n generalizing a with
  | zero => cases hy
  | succ m ih =>
    rw [List.range'_succ] at hy ⊢
    by_cases ha : (rh.getBucket a).isEmpty
    · simp only [scanMin, ha, if_true]
      rcases List.mem_cons.mp hy with rfl | hmem
      · rw [ha] at hne; cases hne
      · exact ih (a + 1) hmem
    · simp only [scanMin, ha, if_false]
      rcases List.mem_cons.mp hy with rfl | hmem
      · exact Nat.le_refl y
      · exact Nat.le_of_lt (Nat.lt_of_lt_of_le (Nat.lt_succ_self a)
          (List.mem_range'_1.mp hmem).1)

theorem nextMinHeight_le_entry (rh : RecomputeHeap)
    (hmem : ∀ it ∈ rh.lookup, it ∈ rh.getBucket it.height ∧
      rh.minHeight ≤ it.height ∧ it.height ≤ rh.maxHeight)
    (it : HeapItem) (hit : it ∈ rh.lookup) :
    rh.nextMinHeight ≤ it.height := by
  have hne : ¬rh.lookup.length = 0 := by
    intro h
    rw [List.length_eq_zero] at h
    rw [h] at hit
    cases hit
  unfold nextMinHeight
  rw [if_neg hne]
  obtain ⟨hb, hmin, hmax⟩ := hmem it hit
  apply scanMin_le
  · rw [List.mem_range'_1]
    exact ⟨hmin, by omega⟩
  · cases hcase : (rh.getBucket it.height).isEmpty
    · rfl
    · rw [List.isEmpty_iff] at hcase
      rw [hcase] at hb
      cases hb

theorem nextMinHeight_lt_len (rh : RecomputeHeap)
    (hpos : 0 < rh.heights.length)
    (hmem : ∀ it ∈ rh.lookup, it ∈ rh.getBucket it.height ∧
      rh.minHeight ≤ it.height ∧ it.height ≤ rh.maxHeight)
    (hmax : rh.maxHeight < rh.heights.length) :
    rh.nextMinHeight < rh.heights.length := by
  unfold nextMinHeight
  by_cases hlen : rh.lookup.length = 0
  · rw [if_pos hlen]
    exact hpos
  · rw [if_neg hlen]
    have hex : ∃ y ∈ List.range' rh.minHeight (rh.maxHeight + 1 - rh.minHeight),
        (rh.getBucket y).isEmpty = false := by
      obtain ⟨it, hit⟩ := List.exists_mem_of_ne_nil rh.lookup
        (fun h => hlen (by rw [h]; rfl))
      obtain ⟨hb, hmin, hmaxe⟩ := hmem it hit
      refine ⟨it.height, ?_, ?_⟩
      · rw [List.mem_range'_1]
        omega
      · cases hcase : (rh.getBucket it.height).isEmpty
        · rfl
        · rw [List.isEmpty_iff] at hcase
          rw [hcase] at hb
          cases hb
    have hm := scanMin_mem rh _ hex
    have := List.mem_range'_1.mp hm.1
    omega

/-! Field-level unfolding lemmas for the heap operations. -/

theorem mUMM_heights (rh : RecomputeHeap) (h : Nat) :
    (rh.maybeUpdateMinMaxHeights h).heights = rh.heights := by
  unfold maybeUpdateMinMaxHeights
  split
  · rfl
  · dsimp only
    split <;> split <;> rfl

theorem mUMM_lookup (rh : RecomputeHeap) (h : Nat) :
    (rh.maybeUpdateMinMaxHeights h).lookup = rh.lookup := by
  unfold maybeUpdateMinMaxHeights
  split
  · rfl
  · dsimp only
    split <;> split <;> rfl

theorem mUMM_min (rh : RecomputeHeap) (h : Nat) :
    (rh.maybeUpdateMinMaxHeights h).minHeight =
      if rh.lookup.length = 0 then h else if rh.minHeight > h then h else rh.minHeight := by
  unfold maybeUpdateMinMaxHeights
  split
  · simp_all
  · dsimp only
    split <;> split <;> simp_all

theorem mUMM_max (rh : RecomputeHeap) (h : Nat) :
    (rh.maybeUpdateMinMaxHeights h).maxHeight =
      if rh.lookup.length = 0 then h else if rh.maxHeight < h then h else rh.maxHeight := by
  unfold maybeUpdateMinMaxHeights
  split
  · simp_all
  · dsimp only
    split <;> split <;> simp_all

theorem mANH_minmax (rh : RecomputeHeap) (h : Nat) :
    (rh.maybeAddNewHeights h).minHeight = rh.minHeight ∧
    (rh.maybeAddNewHeights h).maxHeight = rh.maxHeight ∧
    (rh.maybeAddNewHeights h).lookup = rh.lookup := by
  unfold maybeAddNewHeights
  split <;> exact ⟨rfl, rfl, rfl⟩

theorem mANH_getBucket (rh : RecomputeHeap) (h i : Nat) :
    (rh.maybeAddNewHeights h).getBucket i = rh.getBucket i := by
  unfold maybeAddNewHeights getBucket
  split
  · exact listGetD_append_replicate rh.heights _ i []
  · rfl

theorem mANH_len_le (rh : RecomputeHeap) (h : Nat) :
    rh.heights.length ≤ (rh.maybeAddNewHeights h).heights.length := by
  unfold maybeAddNewHeights
  split
  · simp
  · exact Nat.le_refl _

theorem mANH_len_gt (rh : RecomputeHeap) (h : Nat) :
    h < (rh.maybeAddNewHeights h).heights.length := by
  unfold maybeAddNewHeights
  split
  · simp
    omega
  · omega

theorem addNode_lookup (rh : RecomputeHeap) (id h : Nat) :
    (rh.addNode id h).lookup =
      rh.lookup.filter (fun x => x.id != id) ++ [⟨id, h⟩] := by
  unfold addNode
  dsimp only
  rw [(mANH_minmax _ _).2.2, mUMM_lookup]

theorem addNode_min (rh : RecomputeHeap) (id h : Nat) :
    (rh.addNode id h).minHeight =
      if rh.lookup.length = 0 then h else if rh.minHeight > h then h else rh.minHeight := by
  unfold addNode
  dsimp only
  rw [(mANH_minmax _ _).1, mUMM_min]

theorem addNode_max (rh : RecomputeHeap) (id h : Nat) :
    (rh.addNode id h).maxHeight =
      if rh.lookup.length = 0 then h else if rh.maxHeight < h then h else rh.maxHeight := by
  unfold addNode
  dsimp only
  rw [(mANH_minmax _ _).2.1, mUMM_max]

theorem addNode_heights_len (rh : RecomputeHeap) (id h : Nat) :
    (rh.addNode id h).heights.length =
      ((rh.maybeUpdateMinMaxHeights h).maybeAddNewHeights h).heights.length := by
  unfold addNode
  dsimp only
  rw [List.length_set]

theorem addNode_len_gt (rh : RecomputeHeap) (id h : Nat) :
    h < (rh.addNode id h).heights.length := by
  rw [addNode_heights_len]
  exact mANH_len_gt _ _

theorem addNode_len_ge (rh : RecomputeHeap) (id h : Nat) :
    rh.heights.length ≤ (rh.addNode id h).heights.length := by
  rw [addNode_heights_len]
  calc rh.heights.length
      = (rh.maybeUpdateMinMaxHeights h).heights.length := by rw [mUMM_heights]
    _ ≤ _ := mANH_len_le _ _

theorem addNode_getBucket_self (rh : RecomputeHeap) (id h : Nat) :
    (rh.addNode id h).getBucket h = rh.getBucket h ++ [⟨id, h⟩] := by
  unfold addNode
  dsimp only
  show (RecomputeHeap.getBucket _ h) = _
  unfold getBucket
  dsimp only
  rw [listGetD_set_self _ _ _ _ (mANH_len_gt _ _)]
  have h1 : ((rh.maybeUpdateMinMaxHeights h).maybeAddNewHeights h).getBucket h
      = rh.getBucket h := by
    rw [mANH_getBucket]
    unfold getBucket
    rw [mUMM_heights]
  rw [show ((rh.maybeUpdateMinMaxHeights h).maybeAddNewHeights h).heights.getD h [] =
      ((rh.maybeUpdateMinMaxHeights h).maybeAddNewHeights h).getBucket h from rfl, h1]
  rfl

theorem addNode_getBucket_ne (rh : RecomputeHeap) (id h i : Nat) (hne : i ≠ h) :
    (rh.addNode id h).getBucket i = rh.getBucket i := by
  unfold addNode
  dsimp only
  show (RecomputeHeap.getBucket _ i) = _
  unfold getBucket
  dsimp only
  rw [listGetD_set_ne _ _ _ _ _ (fun hc => hne hc.symm)]
  rw [show ((rh.maybeUpdateMinMaxHeights h).maybeAddNewHeights h).heights.getD i [] =
      ((rh.maybeUpdateMinMaxHeights h).maybeAddNewHeights h).getBucket i from rfl]
  rw [mANH_getBucket]
  unfold getBucket
  rw [mUMM_heights]

theorem removeItem_lookup (rh : RecomputeHeap) (it : HeapItem) :
    (rh.removeItem it).lookup = rh.lookup.filter (fun x => x.id != it.id) := by
  unfold removeItem
  dsimp only
  split <;> rfl

theorem removeItem_heights (rh : RecomputeHeap) (it : HeapItem) :
    (rh.removeItem it).heights = rh.heights.set it.height
      ((rh.getBucket it.height).filter (fun x => x.id != it.id)) := by
  unfold removeItem
  dsimp only
  split <;> rfl

theorem removeItem_max (rh : RecomputeHeap) (it : HeapItem) :
    (rh.removeItem it).maxHeight = rh.maxHeight := by
  unfold removeItem
  dsimp only
  split <;> rfl

theorem removeItem_min_eq (rh : RecomputeHeap) (it : HeapItem) :
    (rh.removeItem it).minHeight = rh.minHeight ∨
    (rh.removeItem it).minHeight =
      RecomputeHeap.nextMinHeight { rh.removeItem it with minHeight := rh.minHeight } := by
  unfold removeItem
  dsimp only
  split
  · right
    rfl
  · left
    rfl

theorem removeItem_len (rh : RecomputeHeap) (it : HeapItem) :
    (rh.removeItem it).heights.length = rh.heights.length := by
  rw [removeItem_heights, List.length_set]

theorem removeItem_getBucket_self (rh : RecomputeHeap) (it : HeapItem)
    (hlt : it.height < rh.heights.length) :
    (rh.removeItem it).getBucket it.height =
      (rh.getBucket it.height).filter (fun x => x.id != it.id) := by
  show (rh.removeItem it).heights.getD it.height [] = _
  rw [removeItem_heights, listGetD_set_self _ _ _ _ hlt]

theorem removeItem_getBucket_ne (rh : RecomputeHeap) (it : HeapItem) (i : Nat)
    (hne : i ≠ it.height) :
    (rh.removeItem it).getBucket i = rh.getBucket i := by
  show (rh.removeItem it).heights.getD i [] = _
  rw [removeItem_heights, listGetD_set_ne _ _ _ _ _ (fun hc => hne hc.symm)]
  rfl

theorem lookupFind_filter_ne (l : List HeapItem) (a b : Nat) (hab : a ≠ b) :
    (l.filter (fun x => x.id != b)).find? (fun x => x.id == a) =
      l.find? (fun x => x.id == a) := by
  apply find?_filter_imp
  intro x hx
  have : x.id = a := eq_of_beq hx
  subst this
  simp [bne_iff_ne, hab]

theorem lookupFind_filter_self (l : List HeapItem) (b : Nat) :
    (l.filter (fun x => x.id != b)).find? (fun x => x.id == b) = none := by
  rw [List.find?_eq_none]
  intro x hx
  have := (List.mem_filter.mp hx).2
  simp only [bne_iff_ne, ne_eq, decide_eq_true_eq] at this
  simp [this]

theorem wf_removeItem (rh : RecomputeHeap) (it : HeapItem) (hwf : WF rh)
    (hfind : rh.lookupFind it.id = some it) : WF (rh.removeItem it) := by
  obtain ⟨hnd, hlk, hbm, hbn, hpos, hminlt, hmaxlt⟩ := hwf
  have hitmem : it ∈ rh.lookup := List.mem_of_find?_eq_some hfind
  obtain ⟨hithlt, hitb, hitmin, hitmax⟩ := hlk it hitmem
  have hLk := removeItem_lookup rh it
  have hMx := removeItem_max rh it
  have hLen := removeItem_len rh it
  have hBs := removeItem_getBucket_self rh it hithlt
  have hBn := removeItem_getBucket_ne rh it
  -- membership facts for entries of the result
  have hmemr : ∀ x ∈ (rh.removeItem it).lookup,
      x ∈ rh.lookup ∧ x.id ≠ it.id := by
    intro x hx
    rw [hLk] at hx
    have := List.mem_filter.mp hx
    refine ⟨this.1, ?_⟩
    have := this.2
    simpa [bne_iff_ne] using this
  have hinbucket : ∀ x ∈ (rh.removeItem it).lookup,
      x ∈ (rh.removeItem it).getBucket x.height := by
    intro x hx
    obtain ⟨hxold, hxne⟩ := hmemr x hx
    obtain ⟨_, hxb, _, _⟩ := hlk x hxold
    by_cases hh : x.height = it.height
    · rw [hh, hBs]
      rw [← hh] at hBs ⊢
      rw [hh] at hxb ⊢
      exact List.mem_filter.mpr ⟨hxb, by simp [bne_iff_ne, hxne]⟩
    · rw [hBn x.height hh]
      exact hxb
  have hwindow : ∀ x ∈ (rh.removeItem it).lookup,
      rh.minHeight ≤ x.height ∧ x.height ≤ rh.maxHeight := by
    intro x hx
    obtain ⟨hxold, _⟩ := hmemr x hx
    obtain ⟨_, _, h1, h2⟩ := hlk x hxold
    exact ⟨h1, h2⟩
  -- the scan-start state used when minHeight gets advanced
  have hmem_t : ∀ x ∈ ({ rh.removeItem it with minHeight := rh.minHeight } :
      RecomputeHeap).lookup,
      x ∈ ({ rh.removeItem it with minHeight := rh.minHeight } :
        RecomputeHeap).getBucket x.height ∧
      ({ rh.removeItem it with minHeight := rh.minHeight } :
        RecomputeHeap).minHeight ≤ x.height ∧
      x.height ≤ ({ rh.removeItem it with minHeight := rh.minHeight } :
        RecomputeHeap).maxHeight := by
    intro x hx
    refine ⟨hinbucket x hx, (hwindow x hx).1, ?_⟩
    show x.height ≤ (rh.removeItem it).maxHeight
    rw [hMx]
    exact (hwindow x hx).2
  have hminr : (rh.removeItem it).minHeight < rh.heights.length ∧
      (∀ x ∈ (rh.removeItem it).lookup, (rh.removeItem it).minHeight ≤ x.height) := by
    rcases removeItem_min_eq rh it with hcase | hcase
    · rw [hcase]
      exact ⟨hminlt, fun x hx => (hwindow x hx).1⟩
    · rw [hcase]
      constructor
      · have := nextMinHeight_lt_len
          ({ rh.removeItem it with minHeight := rh.minHeight }) (by
            show 0 < (rh.removeItem it).heights.length
            rw [hLen]; exact hpos) hmem_t (by
            show (rh.removeItem it).maxHeight < (rh.removeItem it).heights.length
            rw [hMx, hLen]; exact hmaxlt)
        rw [hLen] at this
        exact this
      · intro x hx
        exact nextMinHeight_le_entry _ hmem_t x hx
  refine ⟨?_, ?_, ?_, ?_, ?_, ?_, ?_⟩
  · rw [hLk]
    exact hnd.sublist (List.Sublist.map _ (List.filter_sublist _))
  · intro x hx
    refine ⟨?_, hinbucket x hx, hminr.2 x hx, ?_⟩
    · rw [hLen]
      exact (hlk x (hmemr x hx).1).1
    · rw [hMx]
      exact (hwindow x hx).2
  · intro i hi y hy
    rw [hLen] at hi
    by_cases hh : i = it.height
    · subst hh
      rw [hBs] at hy
      obtain ⟨hyold, hyne⟩ := List.mem_filter.mp hy
      have hid : y.id ≠ it.id := by simpa [bne_iff_ne] using hyne
      obtain ⟨hy1, hy2⟩ := hbm _ hi y hyold
      refine ⟨hy1, ?_⟩
      show ((rh.removeItem it).lookup.find? (fun x => x.id == y.id)) = some y
      rw [hLk, lookupFind_filter_ne _ _ _ hid]
      exact hy2
    · rw [hBn i hh] at hy
      obtain ⟨hy1, hy2⟩ := hbm i hi y hy
      have hid : y.id ≠ it.id := by
        intro hc
        rw [show RecomputeHeap.lookupFind rh y.id =
          rh.lookup.find? (fun x => x.id == y.id) from rfl] at hy2
        rw [hc] at hy2
        have hyeq : y = it := Option.some.inj (hy2.symm.trans hfind)
        rw [hyeq] at hy1
        exact hh hy1.symm
      refine ⟨hy1, ?_⟩
      show ((rh.removeItem it).lookup.find? (fun x => x.id == y.id)) = some y
      rw [hLk, lookupFind_filter_ne _ _ _ hid]
      exact hy2
  · intro i hi
    rw [hLen] at hi
    by_cases hh : i = it.height
    · subst hh
      rw [hBs]
      exact (hbn _ hi).sublist (List.Sublist.map _ (List.filter_sublist _))
    · rw [hBn i hh]
      exact hbn i hi
  · rw [hLen]
    exact hpos
  · rw [hLen]
    exact hminr.1
  · rw [hMx, hLen]
    exact hmaxlt

theorem getBucket_out (rh : RecomputeHeap) (i : Nat) (hi : rh.heights.length ≤ i) :
    rh.getBucket i = [] := by
  show rh.heights.getD i [] = []
  rw [List.getD_eq_getElem?_getD, List.getElem?_eq_none hi]
  rfl

theorem lookupFind_none_ids (rh : RecomputeHeap) (id : Nat)
    (hfind : rh.lookupFind id = none) : ∀ x ∈ rh.lookup, x.id ≠ id := by
  intro x hx hc
  have := List.find?_eq_none.mp hfind x hx
  simp [hc] at this

theorem bucket_ids_ne_of_none (rh : RecomputeHeap) (id h : Nat) (hwf : WF rh)
    (hfind : rh.lookupFind id = none) : ∀ y ∈ rh.getBucket h, y.id ≠ id := by
  intro y hy hc
  obtain ⟨_, _, hbm, _, _, _, _⟩ := hwf
  by_cases hl : h < rh.heights.length
  · have := (hbm h hl y hy).2
    rw [hc] at this
    rw [this] at hfind
    cases hfind
  · rw [getBucket_out rh h (Nat.le_of_not_lt hl)] at hy
    cases hy

theorem wf_addNode (rh : RecomputeHeap) (id h : Nat) (hwf : WF rh)
    (hfind : rh.lookupFind id = none) : WF (rh.addNode id h) := by
  have hids := lookupFind_none_ids rh id hfind
  have hbids := bucket_ids_ne_of_none rh id h hwf hfind
  obtain ⟨hnd, hlk, hbm, hbn, hpos, hminlt, hmaxlt⟩ := hwf
  have hfilter : rh.lookup.filter (fun x => x.id != id) = rh.lookup := by
    rw [List.filter_eq_self]
    intro x hx
    simp [bne_iff_ne, hids x hx]
  have hLk : (rh.addNode id h).lookup = rh.lookup ++ [⟨id, h⟩] := by
    rw [addNode_lookup, hfilter]
  have hBs := addNode_getBucket_self rh id h
  have hBn := addNode_getBucket_ne rh id h
  have hlenge := addNode_len_ge rh id h
  have hlengt := addNode_len_gt rh id h
  have hMin := addNode_min rh id h
  have hMax := addNode_max rh id h
  have hfindA : ∀ a : Nat, (rh.addNode id h).lookup.find? (fun x => x.id == a) =
      ((rh.lookup.find? (fun x => x.id == a)).or
        ([(⟨id, h⟩ : HeapItem)].find? (fun x => x.id == a))) := by
    intro a
    rw [hLk, List.find?_append]
  refine ⟨?_, ?_, ?_, ?_, ?_, ?_, ?_⟩
  · rw [hLk, List.map_append]
    rw [List.nodup_append]
    refine ⟨hnd, List.nodup_singleton _, ?_⟩
    intro a ha hb
    rcases List.mem_map.mp ha with ⟨x, hx, rfl⟩
    have : x.id = id := by simpa using hb
    exact hids x hx this
  · intro x hx
    rw [hLk] at hx
    rcases List.mem_append.mp hx with hold | hnew
    · obtain ⟨h1, h2, h3, h4⟩ := hlk x hold
      have hnonempty : ¬rh.lookup.length = 0 := by
        intro hc
        rw [List.length_eq_zero] at hc
        rw [hc] at hold
        cases hold
      refine ⟨Nat.lt_of_lt_of_le h1 hlenge, ?_, ?_, ?_⟩
      · by_cases hh : x.height = h
        · rw [hh, hBs]
          exact List.mem_append_left _ (hh ▸ h2)
        · rw [hBn x.height hh]
          exact h2
      · rw [hMin, if_neg hnonempty]
        split
        · omega
        · exact h3
      · rw [hMax, if_neg hnonempty]
        split
        · omega
        · exact h4
    · have hxeq : x = ⟨id, h⟩ := by simpa using hnew
      subst hxeq
      refine ⟨hlengt, ?_, ?_, ?_⟩
      · rw [hBs]
        exact List.mem_append_right _ (List.mem_singleton_self _)
      · have hh2 : (⟨id, h⟩ : HeapItem).height = h := rfl
        rw [hMin, hh2]
        split
        · exact Nat.le_refl _
        · split <;> omega
      · have hh2 : (⟨id, h⟩ : HeapItem).height = h := rfl
        rw [hMax, hh2]
        split
        · exact Nat.le_refl _
        · split <;> omega
  · intro i hi y hy
    by_cases hh : i = h
    · subst hh
      rw [hBs] at hy
      rcases List.mem_append.mp hy with hold | hnew
      · by_cases hl : i < rh.heights.length
        · obtain ⟨h1, h2⟩ := hbm i hl y hold
          refine ⟨h1, ?_⟩
          show (rh.addNode id i).lookup.find? (fun x => x.id == y.id) = some y
          rw [hfindA y.id]
          rw [show RecomputeHeap.lookupFind rh y.id =
            rh.lookup.find? (fun x => x.id == y.id) from rfl] at h2
          rw [h2]
          rfl
        · rw [getBucket_out rh i (Nat.le_of_not_lt hl)] at hold
          cases hold
      · have hyeq : y = ⟨id, i⟩ := by simpa using hnew
        subst hyeq
        refine ⟨rfl, ?_⟩
        show (rh.addNode id i).lookup.find? (fun x => x.id == id) = some ⟨id, i⟩
        rw [hfindA id]
        rw [show RecomputeHeap.lookupFind rh id =
          rh.lookup.find? (fun x => x.id == id) from rfl] at hfind
        rw [hfind]
        simp [List.find?]
    · rw [hBn i hh] at hy
      by_cases hl : i < rh.heights.length
      · obtain ⟨h1, h2⟩ := hbm i hl y hy
        refine ⟨h1, ?_⟩
        show (rh.addNode id h).lookup.find? (fun x => x.id == y.id) = some y
        rw [hfindA y.id]
        rw [show RecomputeHeap.lookupFind rh y.id =
          rh.lookup.find? (fun x => x.id == y.id) from rfl] at h2
        rw [h2]
        rfl
      · rw [getBucket_out rh i (Nat.le_of_not_lt hl)] at hy
        cases hy
  · intro i hi
    by_cases hh : i = h
    · subst hh
      rw [hBs, List.map_append, List.nodup_append]
      refine ⟨?_, List.nodup_singleton _, ?_⟩
      · by_cases hl : i < rh.heights.length
        · exact hbn i hl
        · rw [getBucket_out rh i (Nat.le_of_not_lt hl)]
          exact List.nodup_nil
      · intro a ha hb
        rcases List.mem_map.mp ha with ⟨x, hx, rfl⟩
        have : x.id = id := by simpa using hb
        exact hbids x hx this
    · rw [hBn i hh]
      by_cases hl : i < rh.heights.length
      · exact hbn i hl
      · rw [getBucket_out rh i (Nat.le_of_not_lt hl)]
        exact List.nodup_nil
  · exact Nat.lt_of_le_of_lt (Nat.zero_le h) hlengt
  · rw [hMin]
    split
    · exact hlengt
    · split
      · exact hlengt
      · exact Nat.lt_of_lt_of_le hminlt hlenge
  · rw [hMax]
    split
    · exact hlengt
    · split
      · exact hlengt
      · exact Nat.lt_of_lt_of_le hmaxlt hlenge

theorem heap_ext (r1 r2 : RecomputeHeap) (h1 : r1.minHeight = r2.minHeight)
    (h2 : r1.maxHeight = r2.maxHeight) (h3 : r1.heights = r2.heights)
    (h4 : r1.lookup = r2.lookup) : r1 = r2 := by
  cases r1
  cases r2
  simp_all

theorem lookupFind_some_id (rh : RecomputeHeap) (id : Nat) (it : HeapItem)
    (hfind : rh.lookupFind id = some it) : it.id = id := by
  have h2 : rh.lookup.find? (fun x => x.id == id) = some it := hfind
  have h4 := List.find?_some (p := fun x : HeapItem => x.id == id) h2
  have h3 : (it.id == id) = true := h4
  exact eq_of_beq h3

theorem removeItem_lookupFind_self (rh : RecomputeHeap) (it : HeapItem) :
    (rh.removeItem it).lookupFind it.id = none := by
  show (rh.removeItem it).lookup.find? (fun x => x.id == it.id) = none
  rw [removeItem_lookup]
  exact lookupFind_filter_self _ _

theorem wf_add (rh : RecomputeHeap) (id h : Nat) (hwf : WF rh) :
    WF (rh.add id h) := by
  unfold add
  cases hfind : rh.lookupFind id with
  | none => exact wf_addNode rh id h hwf hfind
  | some cur =>
    have hcurid : cur.id = id := lookupFind_some_id rh id cur hfind
    have hfind2 : rh.lookupFind cur.id = some cur := by rw [hcurid]; exact hfind
    have hwf2 := wf_removeItem rh cur hwf hfind2
    have hnone : (rh.removeItem cur).lookupFind id = none := by
      rw [← hcurid]
      exact removeItem_lookupFind_self rh cur
    exact wf_addNode _ id h hwf2 hnone

theorem wf_applyAdds (rh : RecomputeHeap) (ops : List (Nat × Nat)) (hwf : WF rh) :
    WF (rh.applyAdds ops) := by
  induction ops generalizing rh with
  | nil => exact hwf
  | cons p ps ih =>
    show WF (applyAdds (rh.add p.1 p.2) ps)
    exact ih _ (wf_add rh p.1 p.2 hwf)

theorem bucketCount_eq_zero (rh : RecomputeHeap) (id : Nat) (hwf : WF rh)
    (hfind : rh.lookupFind id = none) : rh.bucketCount id = 0 := by
  unfold bucketCount
  apply sum_map_range_eq_zero
  intro i hi
  rw [List.length_eq_zero, List.filter_eq_nil_iff]
  intro y hy hc
  exact bucket_ids_ne_of_none rh id i hwf hfind y hy (eq_of_beq hc)

theorem bucketCount_eq_one (rh : RecomputeHeap) (id : Nat) (it : HeapItem)
    (hwf : WF rh) (hfind : rh.lookupFind id = some it) : rh.bucketCount id = 1 := by
  have hitid : it.id = id := lookupFind_some_id rh id it hfind
  have hitmem : it ∈ rh.lookup := List.mem_of_find?_eq_some hfind
  obtain ⟨hnd, hlk, hbm, hbn, hpos, hminlt, hmaxlt⟩ := hwf
  obtain ⟨hlt, hb, _, _⟩ := hlk it hitmem
  unfold bucketCount
  apply sum_map_range_indicator _ it.height _ hlt
  · have hcnt := count_filter_eq_one_of_nodup (rh.getBucket it.height) HeapItem.id it
      (hbn _ hlt) hb
    rw [hitid] at hcnt
    exact hcnt
  · intro i hi hne
    rw [List.length_eq_zero, List.filter_eq_nil_iff]
    intro y hy hc
    have hyid : y.id = id := eq_of_beq hc
    obtain ⟨hy1, hy2⟩ := hbm i hi y hy
    rw [hyid] at hy2
    have hyeq : y = it := Option.some.inj (hy2.symm.trans hfind)
    rw [hyeq] at hy1
    exact hne hy1.symm

theorem wf_bucketCount_le (rh : RecomputeHeap) (id : Nat) (hwf : WF rh) :
    rh.bucketCount id ≤ 1 := by
  cases hfind : rh.lookupFind id with
  | none => rw [bucketCount_eq_zero rh id hwf hfind]; omega
  | some it => rw [bucketCount_eq_one rh id it hwf hfind]

theorem wf_lookupCount_le (rh : RecomputeHeap) (id : Nat) (hwf : WF rh) :
    rh.lookupCount id ≤ 1 := by
  cases hfind : rh.lookupFind id with
  | none =>
    unfold lookupCount
    have : rh.lookup.filter (fun x => x.id == id) = [] := by
      rw [List.filter_eq_nil_iff]
      intro y hy hc
      exact lookupFind_none_ids rh id hfind y hy (eq_of_beq hc)
    rw [this]
    simp
  | some it =>
    have hitid : it.id = id := lookupFind_some_id rh id it hfind
    have hitmem : it ∈ rh.lookup := List.mem_of_find?_eq_some hfind
    unfold lookupCount
    have := count_filter_eq_one_of_nodup rh.lookup HeapItem.id it hwf.1 hitmem
    rw [hitid] at this
    rw [this]

theorem addNode_lookupCount (rh : RecomputeHeap) (id h : Nat) :
    (rh.addNode id h).lookupCount id = 1 := by
  unfold lookupCount
  rw [addNode_lookup, List.filter_append]
  have h1 : (rh.lookup.filter (fun x => x.id != id)).filter (fun x => x.id == id) = [] := by
    rw [List.filter_eq_nil_iff]
    intro a ha hc
    have := (List.mem_filter.mp ha).2
    simp [eq_of_beq hc] at this
  rw [h1]
  simp [List.filter]

theorem add_lookupCount (rh : RecomputeHeap) (id h : Nat) :
    (rh.add id h).lookupCount id = 1 := by
  unfold add
  cases hfind : rh.lookupFind id with
  | none => exact addNode_lookupCount rh id h
  | some cur => exact addNode_lookupCount _ id h

theorem add_lookupFind (rh : RecomputeHeap) (id h : Nat) :
    (rh.add id h).lookupFind id = some ⟨id, h⟩ := by
  have hgen : ∀ t : RecomputeHeap, (t.addNode id h).lookupFind id = some ⟨id, h⟩ := by
    intro t
    show (t.addNode id h).lookup.find? (fun x => x.id == id) = some ⟨id, h⟩
    rw [addNode_lookup, List.find?_append, lookupFind_filter_self]
    simp [List.find?]
  unfold add
  cases hfind : rh.lookupFind id with
  | none => exact hgen rh
  | some cur => exact hgen _

theorem add_bucketCount (rh : RecomputeHeap) (id h : Nat) (hwf : WF rh) :
    (rh.add id h).bucketCount id = 1 :=
  bucketCount_eq_one _ id ⟨id, h⟩ (wf_add rh id h hwf) (add_lookupFind rh id h)

theorem mUMM_getBucket (rh : RecomputeHeap) (h i : Nat) :
    (rh.maybeUpdateMinMaxHeights h).getBucket i = rh.getBucket i := by
  show (rh.maybeUpdateMinMaxHeights h).heights.getD i [] = rh.heights.getD i []
  rw [mUMM_heights]

theorem mANH_eq_self (rh : RecomputeHeap) (h : Nat) (hlt : h < rh.heights.length) :
    rh.maybeAddNewHeights h = rh := by
  unfold maybeAddNewHeights
  rw [if_neg (Nat.not_le_of_lt hlt)]

theorem addNode_heights_eq (rh : RecomputeHeap) (id h : Nat) :
    (rh.addNode id h).heights =
      ((rh.maybeUpdateMinMaxHeights h).maybeAddNewHeights h).heights.set h
        (((rh.maybeUpdateMinMaxHeights h).maybeAddNewHeights h).getBucket h ++ [⟨id, h⟩]) :=
  rfl

theorem removeItem_min_eq' (rh : RecomputeHeap) (it : HeapItem) :
    (rh.removeItem it).minHeight = rh.minHeight ∨
    ((rh.removeItem it).minHeight =
      RecomputeHeap.nextMinHeight { rh.removeItem it with minHeight := rh.minHeight } ∧
      it.height = rh.minHeight) := by
  unfold removeItem
  dsimp only
  split
  · next hcond =>
    right
    refine ⟨rfl, ?_⟩
    have hparts := (Bool.and_eq_true _ _).mp hcond
    exact eq_of_beq hparts.1
  · left
    rfl

theorem nextMinHeight_ge_start (t : RecomputeHeap) (hne : ¬t.lookup.length = 0)
    (hex : ∃ y ∈ List.range' t.minHeight (t.maxHeight + 1 - t.minHeight),
      (t.getBucket y).isEmpty = false) :
    t.minHeight ≤ t.nextMinHeight := by
  unfold nextMinHeight
  rw [if_neg hne]
  have hmem := scanMin_mem t _ hex
  exact (List.mem_range'_1.mp hmem.1).1

theorem filter_append_single_ne (l : List HeapItem) (id h : Nat) :
    ((l ++ [(⟨id, h⟩ : HeapItem)]).filter (fun x => x.id != id)) =
      l.filter (fun x => x.id != id) := by
  rw [List.filter_append]
  simp [List.filter]

theorem addNode_roundtrip (rh : RecomputeHeap) (id h : Nat) (hwf : WF rh)
    (hfind : rh.lookupFind id = none) :
    ((rh.addNode id h).add id h) = rh.addNode id h := by
  have hids := lookupFind_none_ids rh id hfind
  have hbidfree : ∀ i, ∀ y ∈ rh.getBucket i, y.id ≠ id :=
    fun i => bucket_ids_ne_of_none rh id i hwf hfind
  have hfilter : rh.lookup.filter (fun x => x.id != id) = rh.lookup := by
    rw [List.filter_eq_self]
    intro x hx
    simp [bne_iff_ne, hids x hx]
  have hLkA : (rh.addNode id h).lookup = rh.lookup ++ [⟨id, h⟩] := by
    rw [addNode_lookup, hfilter]
  have hfindA : (rh.addNode id h).lookupFind id = some ⟨id, h⟩ := by
    show (rh.addNode id h).lookup.find? (fun x => x.id == id) = some ⟨id, h⟩
    rw [hLkA, List.find?_append]
    rw [show rh.lookup.find? (fun x => x.id == id) = none from hfind]
    simp [List.find?]
  have hpadlen : h < ((rh.maybeUpdateMinMaxHeights h).maybeAddNewHeights h).heights.length :=
    mANH_len_gt _ _
  have hpadB : ((rh.maybeUpdateMinMaxHeights h).maybeAddNewHeights h).getBucket h =
      rh.getBucket h := by
    rw [mANH_getBucket, mUMM_getBucket]
  have hRlk : ((rh.addNode id h).removeItem ⟨id, h⟩).lookup = rh.lookup := by
    rw [removeItem_lookup, hLkA]
    exact (filter_append_single_ne _ _ _).trans hfilter
  have hAB : (rh.addNode id h).getBucket h = rh.getBucket h ++ [⟨id, h⟩] :=
    addNode_getBucket_self rh id h
  have hABfilter : ((rh.addNode id h).getBucket h).filter (fun x => x.id != id) =
      rh.getBucket h := by
    rw [hAB, filter_append_single_ne]
    rw [List.filter_eq_self]
    intro x hx
    simp [bne_iff_ne, hbidfree h x hx]
  have hRheights : ((rh.addNode id h).removeItem ⟨id, h⟩).heights =
      ((rh.maybeUpdateMinMaxHeights h).maybeAddNewHeights h).heights := by
    rw [removeItem_heights]
    show (rh.addNode id h).heights.set h _ = _
    rw [show ((rh.addNode id h).getBucket (⟨id, h⟩ : HeapItem).height) =
      ((rh.addNode id h).getBucket h) from rfl]
    rw [hABfilter, addNode_heights_eq, List.set_set]
    rw [← hpadB]
    exact list_set_getD_self _ _ _ hpadlen
  have hRB : ∀ i, ((rh.addNode id h).removeItem ⟨id, h⟩).getBucket i = rh.getBucket i := by
    intro i
    show ((rh.addNode id h).removeItem ⟨id, h⟩).heights.getD i [] = _
    rw [hRheights]
    rw [show ((rh.maybeUpdateMinMaxHeights h).maybeAddNewHeights h).heights.getD i [] =
      ((rh.maybeUpdateMinMaxHeights h).maybeAddNewHeights h).getBucket i from rfl]
    rw [mANH_getBucket, mUMM_getBucket]
  have hRmax : ((rh.addNode id h).removeItem ⟨id, h⟩).maxHeight =
      (rh.addNode id h).maxHeight := removeItem_max _ _
  have hRlen : ((rh.addNode id h).removeItem ⟨id, h⟩).heights.length =
      ((rh.maybeUpdateMinMaxHeights h).maybeAddNewHeights h).heights.length := by
    rw [hRheights]
  have hstep : ((rh.addNode id h).add id h) =
      (((rh.addNode id h).removeItem ⟨id, h⟩).addNode id h) := by
    unfold add
    rw [hfindA]
  rw [hstep]
  have hR2 : (((rh.addNode id h).removeItem ⟨id, h⟩).maybeUpdateMinMaxHeights
      h).maybeAddNewHeights h =
      ((rh.addNode id h).removeItem ⟨id, h⟩).maybeUpdateMinMaxHeights h := by
    apply mANH_eq_self
    rw [mUMM_heights, hRlen]
    exact hpadlen
  apply heap_ext
  · -- minHeight
    rw [addNode_min, addNode_min, hRlk]
    by_cases hemp : rh.lookup.length = 0
    · rw [if_pos hemp, if_pos hemp]
    · rw [if_neg hemp, if_neg hemp]
      rcases removeItem_min_eq' (rh.addNode id h) ⟨id, h⟩ with hm | ⟨hm, hm2⟩
      · rw [hm, addNode_min, if_neg hemp]
        by_cases hc : rh.minHeight > h
        · simp [hc]
        · simp [hc]
      · have hheq : (rh.addNode id h).minHeight = h := hm2.symm
        have hAmin : (rh.addNode id h).minHeight =
            if rh.minHeight > h then h else rh.minHeight := by
          rw [addNode_min, if_neg hemp]
        have hAmin2 : (if rh.minHeight > h then h else rh.minHeight) = h :=
          hAmin.symm.trans hheq
        have hhm : h ≤ rh.minHeight := by
          by_cases hc : rh.minHeight > h
          · omega
          · rw [if_neg hc] at hAmin2
            omega
        have hscan : h ≤ ((rh.addNode id h).removeItem ⟨id, h⟩).minHeight := by
          rw [hm]
          obtain ⟨x, hx⟩ := List.exists_mem_of_ne_nil rh.lookup
            (fun hc => hemp (by rw [hc]; rfl))
          obtain ⟨hnd, hlk, hbm, hbn, hpos, hminlt, hmaxlt⟩ := hwf
          obtain ⟨hx1, hx2, hx3, hx4⟩ := hlk x hx
          set T : RecomputeHeap := { (rh.addNode id h).removeItem ⟨id, h⟩ with
            minHeight := (rh.addNode id h).minHeight } with hT
          have hTlk : T.lookup = rh.lookup := hRlk
          have hTmin : T.minHeight = h := hheq
          have hTmax : T.maxHeight = (rh.addNode id h).maxHeight := hRmax
          have hTB : ∀ i, T.getBucket i = rh.getBucket i := hRB
          have hxmax : x.height ≤ T.maxHeight := by
            rw [hTmax, addNode_max, if_neg hemp]
            split <;> omega
          have hxmin : h ≤ x.height := Nat.le_trans hhm hx3
          have hex : ∃ y ∈ List.range' T.minHeight (T.maxHeight + 1 - T.minHeight),
              (T.getBucket y).isEmpty = false := by
            refine ⟨x.height, ?_, ?_⟩
            · rw [List.mem_range'_1, hTmin]
              omega
            · rw [hTB]
              cases hcase : (rh.getBucket x.height).isEmpty
              · rfl
              · rw [List.isEmpty_iff] at hcase
                rw [hcase] at hx2
                cases hx2
          have hne2 : ¬T.lookup.length = 0 := by
            rw [hTlk]
            exact hemp
          have hge := nextMinHeight_ge_start T hne2 hex
          rw [hTmin] at hge
          exact hge
        rw [hAmin2]
        by_cases hc2 : ((rh.addNode id h).removeItem ⟨id, h⟩).minHeight > h
        · rw [if_pos hc2]
        · rw [if_neg hc2]
          omega
  · -- maxHeight
    by_cases hemp : rh.lookup.length = 0
    · rw [addNode_max, addNode_max, hRlk, if_pos hemp, if_pos hemp]
    · rw [addNode_max, addNode_max, hRlk, if_neg hemp, if_neg hemp, hRmax,
        addNode_max, if_neg hemp]
      by_cases hc : rh.maxHeight < h
      · simp [hc]
      · simp [hc]
  · -- heights
    rw [addNode_heights_eq, hR2, addNode_heights_eq]
    rw [mUMM_heights, hRheights]
    have hgb : (((rh.addNode id h).removeItem ⟨id, h⟩).maybeUpdateMinMaxHeights
        h).getBucket h = rh.getBucket h := by
      rw [mUMM_getBucket, hRB]
    rw [hgb, hpadB]
  · -- lookup
    rw [addNode_lookup, addNode_lookup, hRlk]

theorem add_idem (rh : RecomputeHeap) (id h : Nat) (hwf : WF rh) :
    (rh.add id h).add id h = rh.add id h := by
  cases hfind : rh.lookupFind id with
  | none =>
    have hred : rh.add id h = rh.addNode id h := by
      unfold add
      rw [hfind]
    rw [hred]
    exact addNode_roundtrip rh id h hwf hfind
  | some cur =>
    have hcurid : cur.id = id := lookupFind_some_id rh id cur hfind
    have hfind2 : rh.lookupFind cur.id = some cur := by rw [hcurid]; exact hfind
    have hwf2 := wf_removeItem rh cur hwf hfind2
    have hnone : (rh.removeItem cur).lookupFind id = none := by
      rw [← hcurid]
      exact removeItem_lookupFind_self rh cur
    have hred : rh.add id h = (rh.removeItem cur).addNode id h := by
      unfold add
      rw [hfind]
    rw [hred]
    exact addNode_roundtrip (rh.removeItem cur) id h hwf2 hnone

end RecomputeHeap

/-- C4: recompute-heap Add is deduplicating and idempotent.  After Add(n) the
heap holds n exactly once: one lookup entry for its id (so Len, the size of the
lookup map, counts n once) and one occurrence across all height buckets.  After
any sequence of Add calls the heap contains n at most once, and calling Add(n)
twice in a row yields exactly the same heap state as calling it once. -/
theorem heap_add_dedup_idempotent (rh : RecomputeHeap) (id h : Nat)
    (hwf : RecomputeHeap.WF rh) :
    (rh.add id h).lookupCount id = 1 ∧
    (rh.add id h).bucketCount id = 1 ∧
    (∀ ops : List (Nat × Nat), (rh.applyAdds ops).bucketCount id ≤ 1 ∧
      (rh.applyAdds ops).lookupCount id ≤ 1) ∧
    (rh.add id h).add id h = rh.add id h := by
  refine ⟨RecomputeHeap.add_lookupCount rh id h,
    RecomputeHeap.add_bucketCount rh id h hwf, ?_,
    RecomputeHeap.add_idem rh id h hwf⟩
  intro ops
  have hwf2 := RecomputeHeap.wf_applyAdds rh ops hwf
  exact ⟨RecomputeHeap.wf_bucketCount_le _ id hwf2,
    RecomputeHeap.wf_lookupCount_le _ id hwf2⟩

/-- Witness for C4 at a concrete heap: a node with id 2 sitting at height 1,
re-added at height 3 twice, yields the same state as adding it once. -/
theorem heap_add_dedup_idempotent_witness :
    ((((RecomputeHeap.mkNew 4).add 2 1).add 2 3).add 2 3) =
      (((RecomputeHeap.mkNew 4).add 2 1).add 2 3) :=
  (heap_add_dedup_idempotent ((RecomputeHeap.mkNew 4).add 2 1) 2 3 (by decide)).2.2.2

/-- C10: RemoveMin on an empty recompute heap returns nil (no element) and
leaves the heap completely unchanged, so Len stays 0 and minHeight and
maxHeight are not modified. -/
theorem heap_removeMin_empty_noop (rh : RecomputeHeap) (hwf : RecomputeHeap.WF rh)
    (hempty : rh.lenH = 0) : rh.removeMin = (none, rh) := by
  obtain ⟨hnd, hlk, hbm, hbn, hpos, hminlt, hmaxlt⟩ := hwf
  have hlook : rh.lookup = [] := List.eq_nil_of_length_eq_zero hempty
  have hb : rh.getBucket rh.minHeight = [] := by
    cases hcase : rh.getBucket rh.minHeight with
    | nil => rfl
    | cons it rest =>
      have hit : it ∈ rh.getBucket rh.minHeight := by
        rw [hcase]
        exact List.mem_cons_self it rest
      have hfind := (hbm rh.minHeight hminlt it hit).2
      rw [show RecomputeHeap.lookupFind rh it.id =
        rh.lookup.find? (fun x => x.id == it.id) from rfl, hlook] at hfind
      cases hfind
  unfold RecomputeHeap.removeMin
  rw [hb]

/-- Witness for C10: a freshly constructed heap with 32 bucket slots. -/
theorem heap_removeMin_empty_noop_witness :
    (RecomputeHeap.mkNew 32).removeMin = (none, RecomputeHeap.mkNew 32) :=
  heap_removeMin_empty_noop (RecomputeHeap.mkNew 32) (by decide) (by decide)

/-- C3 (code bug): the minHeight bookkeeping invariant fails after Fix.  Start
from the well-formed heap holding exactly one node (id 1) inserted at height 2;
change the node's height to 3 and call Fix.  The source's fixUnsafe removes the
item from its old bucket without advancing minHeight (unlike removeItemUnsafe),
and addNodeUnsafe sees a non-empty lookup map so it only ever lowers minHeight.
The result keeps minHeight = 2 while the smallest non-empty bucket is 3, and the
bucket at minHeight is empty, so a later RemoveMin would return nil despite the
heap holding a node. -/
theorem heap_fix_breaks_minHeight :
    RecomputeHeap.WF ((RecomputeHeap.mkNew 4).add 1 2) ∧
    (((RecomputeHeap.mkNew 4).add 1 2).fix 1 3).minHeight = 2 ∧
    (((RecomputeHeap.mkNew 4).add 1 2).fix 1 3).smallestNonempty = some 3 ∧
    (((RecomputeHeap.mkNew 4).add 1 2).fix 1 3).lenH = 1 ∧
    ((((RecomputeHeap.mkNew 4).add 1 2).fix 1 3).getBucket
      (((RecomputeHeap.mkNew 4).add 1 2).fix 1 3).minHeight) = [] ∧
    (((RecomputeHeap.mkNew 4).add 1 2).fix 1 3).removeMin =
      (none, ((RecomputeHeap.mkNew 4).add 1 2).fix 1 3) := by
  decide

/-!
Shallow embedding of the bindIncr recompute protocol (the source's
bindIncr.Stabilize together with its Link walk).  The embedding keeps exactly
the fields Stabilize reads and writes; the input, the bound node and the graph
are represented by the fields of theirs that the method touches.
-/

/-- An entry of the bind scope's rhsNodes list, as seen by the Link walk: the
walk runs typed.Link only on entries whose Go type assertion to IBind succeeds
and whose node isNecessary() reports true. -/
structure RhsNode where
  id : Nat
  isBind : Bool
  necessary : Bool
deriving DecidableEq, Repr

/-- The state read and written by bindIncr.Stabilize: the graph pointer and its
stabilizationNum, the input node's changedAt, the bind node's own changedAt and
boundAt, the identity of the bound right-hand side and of the bindChange node,
the changedAt of the bound node, and the scope's rhsNodes. -/
structure BindState where
  graphSet : Bool
  stabilizationNum : Nat
  inputChangedAt : Nat
  changedAt : Nat
  boundAt : Nat
  bound : Option Nat
  boundChangedAt : Nat
  bindChange : Option Nat
  rhsNodes : List RhsNode
deriving DecidableEq, Repr

/-- The outcome of the user bind function fn: an error, or a returned
incremental (none models a nil Incr). -/
inductive FnOutcome where
  | fnError : FnOutcome
  | fnReturn : Option Nat → FnOutcome
deriving DecidableEq, Repr

/-- What one call of bindIncr.Stabilize did: the updated state, whether fn was
invoked, whether an error was returned, and the ids of the rhsNodes the nested
Link walk was run on. -/
structure BindResult where
  st : BindState
  invokedFn : Bool
  isError : Bool
  linked : List Nat
deriving DecidableEq, Repr

/-- Go bindIncr.didInputChange: input.changedAt >= bind.changedAt. -/
def didInputChange (s : BindState) : Bool :=
  decide (s.changedAt ≤ s.inputChangedAt)

/-- The rhsNodes walk shared by bindIncr.Link and bindIncr.linkNewBound: run
Link on every scope node that is an IBind and is necessary. -/
def linkWalk (rhs : List RhsNode) : List Nat :=
  (rhs.filter (fun r => r.isBind && r.necessary)).map RhsNode.id

/-- Shallow embedding of bindIncr.Stabilize.  The freshBindChange argument
stands for the identifier of the bind-lhs-change node freshly created by
linkBindChange when the right-hand side is replaced. -/
def bindStabilize (s : BindState) (fn : FnOutcome) (freshBindChange : Nat) : BindResult :=
  if s.graphSet = false then
    -- graph is unset: return an error without calling fn
    { st := s, invokedFn := false, isError := true, linked := [] }
  else if !didInputChange s then
    -- the input did not change: update boundAt so propagation continues, skip fn
    { st := { s with boundAt := s.stabilizationNum },
      invokedFn := false, isError := false, linked := [] }
  else
    match fn with
    | .fnError => { st := s, invokedFn := true, isError := true, linked := [] }
    | .fnReturn newIncr =>
      match s.bound, newIncr with
      | some old, some newId =>
        if old ≠ newId then
          -- different identity: unlink the old bound and bindChange, rebuild both
          { st := { s with
              bound := some newId
              bindChange := some freshBindChange
              boundAt := s.stabilizationNum }
            invokedFn := true
            isError := false
            linked := linkWalk s.rhsNodes }
        else
          -- same identity: run b.Link, keep bound and bindChange
          { st := if s.boundAt < s.boundChangedAt then
                    { s with boundAt := s.stabilizationNum } else s
            invokedFn := true
            isError := false
            linked := linkWalk s.rhsNodes }
      | none, some newId =>
        { st := { s with
            bound := some newId
            bindChange := some freshBindChange
            boundAt := s.stabilizationNum }
          invokedFn := true
          isError := false
          linked := linkWalk s.rhsNodes }
      | some _, none =>
        { st := { s with
            bound := none
            bindChange := none
            boundAt := s.stabilizationNum }
          invokedFn := true
          isError := false
          linked := [] }
      | none, none =>
        { st := s, invokedFn := true, isError := false, linked := [] }

/-- C1: for a bind node attached to a graph, Stabilize invokes the bind
function exactly when the input's changedAt is at least the bind's changedAt;
when the input did not change, fn is not invoked, boundAt is set to the graph's
stabilizationNum, bound and bindChange are left unchanged, and the call returns
success. -/
theorem bind_stabilize_input_gate (s : BindState) (fn : FnOutcome) (fresh : Nat)
    (hg : s.graphSet = true) :
    ((bindStabilize s fn fresh).invokedFn = true ↔ s.changedAt ≤ s.inputChangedAt) ∧
    (s.inputChangedAt < s.changedAt →
      (bindStabilize s fn fresh).st.boundAt = s.stabilizationNum ∧
      (bindStabilize s fn fresh).st.bound = s.bound ∧
      (bindStabilize s fn fresh).st.bindChange = s.bindChange ∧
      (bindStabilize s fn fresh).invokedFn = false ∧
      (bindStabilize s fn fresh).isError = false) := by
  cases hchg : didInputChange s with
  | false =>
    have hlt : s.inputChangedAt < s.changedAt := by
      have := of_decide_eq_false hchg
      omega
    have hred : bindStabilize s fn fresh =
        { st := { s with boundAt := s.stabilizationNum }
          invokedFn := false
          isError := false
          linked := [] } := by
      unfold bindStabilize
      rw [hg, hchg]
      simp
    rw [hred]
    constructor
    · simp
      omega
    · intro _
      exact ⟨rfl, rfl, rfl, rfl, rfl⟩
  | true =>
    have hle : s.changedAt ≤ s.inputChangedAt := of_decide_eq_true hchg
    have hinv : (bindStabilize s fn fresh).invokedFn = true := by
      unfold bindStabilize
      rw [hg, hchg]
      simp only [Bool.true_eq_false, if_false, Bool.not_true, Bool.false_eq_true]
      cases fn with
      | fnError => rfl
      | fnReturn newIncr =>
        cases s.bound <;> cases newIncr <;> simp only []
        all_goals first
          | rfl
          | (split <;> rfl)
    refine ⟨by rw [hinv]; simp [hle], fun hlt => absurd hle (by omega)⟩

/-- Witness for C1: a concrete bind whose input did not change (changedAt 5,
input changedAt 2) at stabilization 7 keeps its bound and bindChange, moves
boundAt to 7, does not run fn, and succeeds. -/
theorem bind_stabilize_input_gate_witness :
    (bindStabilize ⟨true, 7, 2, 5, 3, some 9, 4, some 11, []⟩
        (.fnReturn (some 9)) 99).st.boundAt = 7 ∧
    (bindStabilize ⟨true, 7, 2, 5, 3, some 9, 4, some 11, []⟩
        (.fnReturn (some 9)) 99).st.bound = some 9 ∧
    (bindStabilize ⟨true, 7, 2, 5, 3, some 9, 4, some 11, []⟩
        (.fnReturn (some 9)) 99).st.bindChange = some 11 ∧
    (bindStabilize ⟨true, 7, 2, 5, 3, some 9, 4, some 11, []⟩
        (.fnReturn (some 9)) 99).invokedFn = false ∧
    (bindStabilize ⟨true, 7, 2, 5, 3, some 9, 4, some 11, []⟩
        (.fnReturn (some 9)) 99).isError = false :=
  (bind_stabilize_input_gate ⟨true, 7, 2, 5, 3, some 9, 4, some 11, []⟩
    (.fnReturn (some 9)) 99 rfl).2 (by decide)

/-- C6 counterexample: with the input changed and fn returning the node with
the same identifier as the current bound, a scope rhs node that is necessary
but is not a bind is not re-linked: the Link walk in the source runs only on
entries whose type assertion to IBind succeeds.  Here node 5 is necessary yet
absent from the linked list. -/
theorem bind_samebound_relink_counterexample :
    didInputChange ⟨true, 7, 5, 3, 2, some 9, 6, some 11, [⟨5, false, true⟩]⟩ = true ∧
    (⟨5, false, true⟩ : RhsNode).necessary = true ∧
    ¬(∀ r ∈ (⟨true, 7, 5, 3, 2, some 9, 6, some 11,
        [⟨5, false, true⟩]⟩ : BindState).rhsNodes,
      r.necessary = true →
      r.id ∈ (bindStabilize ⟨true, 7, 5, 3, 2, some 9, 6, some 11, [⟨5, false, true⟩]⟩
        (.fnReturn (some 9)) 99).linked) := by
  decide

/-- C6 (amended): for a bind whose input changed and whose fn returned a node
with the same identifier as the current bound, the bound pointer and the
bindChange node are left unchanged, the Link walk re-links exactly the scope
rhsNodes that are bind nodes and necessary, boundAt becomes the current
stabilizationNum exactly when the bound node's changedAt is strictly greater
than the old boundAt (and keeps its old value otherwise), and no error is
returned. -/
theorem bind_samebound_stabilize (s : BindState) (fresh bid : Nat)
    (hg : s.graphSet = true) (hchg : s.changedAt ≤ s.inputChangedAt)
    (hb : s.bound = some bid) :
    (bindStabilize s (.fnReturn (some bid)) fresh).st.bound = s.bound ∧
    (bindStabilize s (.fnReturn (some bid)) fresh).st.bindChange = s.bindChange ∧
    (bindStabilize s (.fnReturn (some bid)) fresh).linked =
      (s.rhsNodes.filter (fun r => r.isBind && r.necessary)).map RhsNode.id ∧
    (bindStabilize s (.fnReturn (some bid)) fresh).st.boundAt =
      (if s.boundAt < s.boundChangedAt then s.stabilizationNum else s.boundAt) ∧
    (bindStabilize s (.fnReturn (some bid)) fresh).isError = false := by
  have hch : didInputChange s = true := decide_eq_true hchg
  have hred : bindStabilize s (.fnReturn (some bid)) fresh =
      { st := if s.boundAt < s.boundChangedAt then
                { s with boundAt := s.stabilizationNum } else s
        invokedFn := true
        isError := false
        linked := linkWalk s.rhsNodes } := by
    unfold bindStabilize
    rw [hg, hch, hb]
    simp
  rw [hred]
  refine ⟨?_, ?_, rfl, ?_, rfl⟩
  · show (if s.boundAt < s.boundChangedAt then
        { s with boundAt := s.stabilizationNum } else s).bound = s.bound
    split <;> rfl
  · show (if s.boundAt < s.boundChangedAt then
        { s with boundAt := s.stabilizationNum } else s).bindChange = s.bindChange
    split <;> rfl
  · show (if s.boundAt < s.boundChangedAt then
        { s with boundAt := s.stabilizationNum } else s).boundAt = _
    split <;> rfl

/-- Witness for the amended C6 at a concrete bind: bound node 9 returned again,
scope holding the non-bind node 5 and the necessary bind node 8; only node 8 is
re-linked, bound and bindChange stay, and boundAt moves to 7 because the bound
node changed (6) after the last boundAt (2). -/
theorem bind_samebound_stabilize_witness :
    (bindStabilize ⟨true, 7, 5, 3, 2, some 9, 6, some 11,
        [⟨5, false, true⟩, ⟨8, true, true⟩]⟩ (.fnReturn (some 9)) 99).st.bound = some 9 ∧
    (bindStabilize ⟨true, 7, 5, 3, 2, some 9, 6, some 11,
        [⟨5, false, true⟩, ⟨8, true, true⟩]⟩ (.fnReturn (some 9)) 99).st.bindChange = some 11 ∧
    (bindStabilize ⟨true, 7, 5, 3, 2, some 9, 6, some 11,
        [⟨5, false, true⟩, ⟨8, true, true⟩]⟩ (.fnReturn (some 9)) 99).linked = [8] ∧
    (bindStabilize ⟨true, 7, 5, 3, 2, some 9, 6, some 11,
        [⟨5, false, true⟩, ⟨8, true, true⟩]⟩ (.fnReturn (some 9)) 99).st.boundAt = 7 ∧
    (bindStabilize ⟨true, 7, 5, 3, 2, some 9, 6, some 11,
        [⟨5, false, true⟩, ⟨8, true, true⟩]⟩ (.fnReturn (some 9)) 99).isError = false := by
  have hth := bind_samebound_stabilize
    ⟨true, 7, 5, 3, 2, some 9, 6, some 11, [⟨5, false, true⟩, ⟨8, true, true⟩]⟩
    99 9 rfl (by decide) rfl
  simpa using hth

/-!
The top-level stabilize driver, Var.Set and the observation bookkeeping are not
among the available sources (only their tests and callers are), so they are
modelled from the specification text (sections 4.6, 5 and 4.3 of the spec) and
pinned by the repository's tests where those are more specific.
-/

/-- Modelled from the spec: the node kinds the driver distinguishes.  A var is
an input holding a pending write; a map recomputes from its parents; an err
node stands for a compute function that returns the given error code. -/
inductive EngKind where
  | varNode : EngKind
  | mapNode : EngKind
  | errNode : Nat → EngKind
deriving DecidableEq, Repr

/-- Modelled from the spec: the per-node metadata of section 3.2 that the
driver reads and writes.  Values are symbolic (lists of tags) so that value
change is observable; parents are the dependencies and children the dependents
(section 3.2 convention). -/
structure EngNode where
  id : Nat
  height : Nat
  kind : EngKind
  parents : List Nat
  children : List Nat
  observers : List Nat
  value : List Nat
  pending : List Nat
  setAt : Nat
  changedAt : Nat
  recomputedAt : Nat
  numRecomputes : Nat
  onError : List Nat
deriving DecidableEq, Repr

/-- Modelled from the spec: the graph container of section 3.3.  The
stabilizationNum field holds the number the next pass will stamp with (it
starts at 1 and is advanced when a pass completes, which reconciles the
spec's initial value with the stamps the tests expect); setDuring is the
queue of deferred Var.Set writes; errLog records every onError listener
firing as a pair of listener id and error code. -/
structure EngGraph where
  nodes : List EngNode
  heap : List Nat
  stabilizing : Bool
  stabilizationNum : Nat
  setDuring : List (Nat × List Nat)
  errLog : List (Nat × Nat)
deriving DecidableEq, Repr

/-- Node lookup by id. -/
def lookupN (ns : List EngNode) (id : Nat) : Option EngNode :=
  ns.find? (fun n => n.id == id)

/-- Height of a node, defaulting to 0 for a missing id. -/
def heightOfN (ns : List EngNode) (id : Nat) : Nat :=
  match lookupN ns id with
  | some n => n.height
  | none => 0

/-- Apply an update function to the node with the given id. -/
def updateNode (g : EngGraph) (id : Nat) (f : EngNode → EngNode) : EngGraph :=
  { g with nodes := g.nodes.map (fun n => if n.id == id then f n else n) }

/-- Necessity: the observers set is non-empty (spec section 3.2 invariant 3). -/
def necessaryB (n : EngNode) : Bool :=
  !n.observers.isEmpty

/-- Modelled from the spec: heap Add contract, deduplicating by membership. -/
def heapAdd (hp : List Nat) (id : Nat) : List Nat :=
  if id ∈ hp then hp else hp ++ [id]

/-- Minimum of a list of heights. -/
def listMin : List Nat → Nat
  | [] => 0
  | x :: xs => xs.foldl Nat.min x

/-- Modelled from the spec: heap RemoveMin contract; pop an entry of minimal
height (first such entry, FIFO within a level). -/
def removeMinE (g : EngGraph) : Option (Nat × EngGraph) :=
  match g.heap.find? (fun id => heightOfN g.nodes id == listMin (g.heap.map (heightOfN g.nodes))) with
  | some id => some (id, { g with heap := g.heap.erase id })
  | none => none

/-- Concatenated parent values, in parent order. -/
def parentValues (ns : List EngNode) (ps : List Nat) : List Nat :=
  ps.foldr (fun p acc =>
    (match lookupN ns p with
     | some n => n.value
     | none => []) ++ acc) []

/-- Modelled from the spec: one node recomputation.  A var takes its pending
write; a map recomputes from its parents, tagged with its own id so distinct
nodes produce distinct values. -/
def computeValue (ns : List EngNode) (n : EngNode) : List Nat :=
  match n.kind with
  | .varNode => n.pending
  | .mapNode => n.id :: parentValues ns n.parents
  | .errNode _ => n.value

/-- The recompute bookkeeping applied to a successfully stabilized node. -/
def bumpRecompute (s : Nat) (newV : List Nat) (changed : Bool) (m : EngNode) : EngNode :=
  { m with
    value := newV
    recomputedAt := s
    numRecomputes := m.numRecomputes + 1
    changedAt := if changed then s else m.changedAt }

/-- The bookkeeping applied to a node whose stabilize returned an error. -/
def bumpError (s : Nat) (m : EngNode) : EngNode :=
  { m with
    recomputedAt := s
    numRecomputes := m.numRecomputes + 1 }

/-- Modelled from the spec: enqueue the necessary children of a changed node. -/
def enqueueChildren (g : EngGraph) (cs : List Nat) : EngGraph :=
  cs.foldl (fun acc c =>
    match lookupN acc.nodes c with
    | some cn => if necessaryB cn then { acc with heap := heapAdd acc.heap c } else acc
    | none => acc) g

/-- Errors the driver can return. -/
inductive EngError where
  | alreadyStabilizing : EngError
  | nodeError : Nat → Nat → EngError
deriving DecidableEq, Repr

/-- Modelled from the spec (section 4.6): the recompute loop.  Fuel-bounded;
returns the final graph, the error if one aborted the pass, and the log of
node ids whose Stabilize was invoked, in invocation order.  On an error the
onError listeners of the failing node fire and the node is put back into the
heap (section 4.5: the node remains in the heap to be retried on the next
stabilization, as the error test in the repository also checks). -/
def stabilizeLoop (s : Nat) : Nat → EngGraph → List Nat →
    EngGraph × Option EngError × List Nat
  | 0, g, log => (g, none, log)
  | fuel + 1, g, log =>
    match removeMinE g with
    | none => (g, none, log)
    | some (id, g1) =>
      match lookupN g1.nodes id with
      | none => stabilizeLoop s fuel g1 log
      | some n =>
        if necessaryB n = false then stabilizeLoop s fuel g1 log
        else
          match n.kind with
          | .errNode code =>
            let g2 := updateNode g1 id (bumpError s)
            let g3 : EngGraph :=
              { g2 with
                errLog := g2.errLog ++ n.onError.map (fun l => (l, code))
                heap := heapAdd g2.heap id }
            (g3, some (.nodeError id code), log ++ [id])
          | _ =>
            let newV := computeValue g1.nodes n
            let changed := newV ≠ n.value
            let g2 := updateNode g1 id (bumpRecompute s newV changed)
            let g3 := if changed then enqueueChildren g2 n.children else g2
            stabilizeLoop s fuel g3 (log ++ [id])

/-- Modelled from the spec (section 5): apply the deferred Var.Set writes
queued during the pass; each write lands in the node's value, stamps setAt
with the now-current stabilizationNum (the upcoming pass's number), and puts
the var into the heap for the next pass. -/
def applyDeferred (g : EngGraph) : EngGraph :=
  g.setDuring.foldl (fun acc p =>
    let acc2 := updateNode acc p.1 (fun m =>
      { m with value := p.2, pending := p.2, setAt := acc.stabilizationNum })
    { acc2 with heap := heapAdd acc2.heap p.1 }) g

/-- Modelled from the spec (section 4.6): the top-level Stabilize.  A second
call while one is active fails with AlreadyStabilizing and changes nothing;
otherwise the loop runs with the current stabilizationNum as the stamp, and on
success the number advances and the deferred writes are applied. -/
def stabilize (fuel : Nat) (g : EngGraph) : EngGraph × Option EngError × List Nat :=
  if g.stabilizing then (g, some .alreadyStabilizing, [])
  else
    match stabilizeLoop g.stabilizationNum fuel { g with stabilizing := true } [] with
    | (g2, some e, log) => ({ g2 with stabilizing := false }, some e, log)
    | (g2, none, log) =>
      ({ applyDeferred { g2 with stabilizationNum := g.stabilizationNum + 1 } with
          stabilizing := false, setDuring := [] }, none, log)

/-- Modelled from the spec (section 5): Var.Set.  While a stabilization is in
progress the write is queued and no node state changes; otherwise the pending
value and setAt are set (to the upcoming stabilization number) and the var is
enqueued. -/
def varSet (g : EngGraph) (id : Nat) (v : List Nat) : EngGraph :=
  if g.stabilizing then
    { g with setDuring := g.setDuring ++ [(id, v)] }
  else
    let g2 := updateNode g id (fun m => { m with pending := v, setAt := g.stabilizationNum })
    { g2 with heap := heapAdd g2.heap id }

/-! Frame lemmas for the engine operations. -/

theorem lookupN_map_preserve (ns : List EngNode) (x : Nat) (f : EngNode → EngNode)
    (hid : ∀ n, (f n).id = n.id) :
    lookupN (ns.map f) x = (lookupN ns x).map f := by
  unfold lookupN
  rw [List.find?_map]
  have hp : ((fun n : EngNode => n.id == x) ∘ f) = (fun n : EngNode => n.id == x) := by
    funext n
    show ((f n).id == x) = (n.id == x)
    rw [hid]
  rw [hp]

theorem updateNode_f_id (id : Nat) (f : EngNode → EngNode) (hid : ∀ n, (f n).id = n.id) :
    ∀ n : EngNode, ((fun m => if m.id == id then f m else m) n).id = n.id := by
  intro n
  dsimp only
  split
  · exact hid n
  · rfl

theorem lookupN_updateNode (g : EngGraph) (id x : Nat) (f : EngNode → EngNode)
    (hid : ∀ n, (f n).id = n.id) :
    lookupN (updateNode g id f).nodes x =
      (lookupN g.nodes x).map (fun m => if m.id == id then f m else m) := by
  show lookupN (g.nodes.map _) x = _
  exact lookupN_map_preserve g.nodes x _ (updateNode_f_id id f hid)

theorem bumpRecompute_id (s : Nat) (newV : List Nat) (changed : Bool) :
    ∀ n : EngNode, (bumpRecompute s newV changed n).id = n.id := fun _ => rfl

theorem bumpError_id (s : Nat) : ∀ n : EngNode, (bumpError s n).id = n.id := fun _ => rfl

theorem heightOfN_updateNode (g : EngGraph) (id x : Nat) (f : EngNode → EngNode)
    (hid : ∀ n, (f n).id = n.id) (hht : ∀ n, (f n).height = n.height) :
    heightOfN (updateNode g id f).nodes x = heightOfN g.nodes x := by
  unfold heightOfN
  rw [lookupN_updateNode g id x f hid]
  cases lookupN g.nodes x with
  | none => rfl
  | some n =>
    show (if n.id == id then f n else n).height = n.height
    split
    · exact hht n
    · rfl

theorem enqueueChildren_frame (cs : List Nat) (g : EngGraph) :
    (enqueueChildren g cs).nodes = g.nodes ∧
    (enqueueChildren g cs).setDuring = g.setDuring ∧
    (enqueueChildren g cs).stabilizationNum = g.stabilizationNum ∧
    (enqueueChildren g cs).errLog = g.errLog ∧
    (enqueueChildren g cs).stabilizing = g.stabilizing := by
  induction cs generalizing g with
  | nil => exact ⟨rfl, rfl, rfl, rfl, rfl⟩
  | cons c cs ih =>
    show (enqueueChildren _ cs).nodes = _ ∧ _
    cases hc : lookupN g.nodes c with
    | none =>
      have hstep : (match lookupN g.nodes c with
          | some cn => if necessaryB cn then { g with heap := heapAdd g.heap c } else g
          | none => g) = g := by rw [hc]
      simpa [enqueueChildren, List.foldl_cons, hc] using ih g
    | some cn =>
      by_cases hnec : necessaryB cn = true
      · simpa [enqueueChildren, List.foldl_cons, hc, hnec] using
          ih { g with heap := heapAdd g.heap c }
      · simpa [enqueueChildren, List.foldl_cons, hc, hnec] using ih g

theorem heapAdd_mem (hp : List Nat) (id x : Nat) :
    x ∈ heapAdd hp id → x ∈ hp ∨ x = id := by
  unfold heapAdd
  split
  · exact fun h => Or.inl h
  · intro h
    rcases List.mem_append.mp h with h1 | h1
    · exact Or.inl h1
    · exact Or.inr (by simpa using h1)

theorem heapAdd_mem_self (hp : List Nat) (id : Nat) : id ∈ heapAdd hp id := by
  unfold heapAdd
  split
  · next hc => exact hc
  · exact List.mem_append_right _ (List.mem_singleton_self _)

theorem heapAdd_mem_of_mem (hp : List Nat) (id x : Nat) (h : x ∈ hp) :
    x ∈ heapAdd hp id := by
  unfold heapAdd
  split
  · exact h
  · exact List.mem_append_left _ h

theorem heapAdd_nodup (hp : List Nat) (id : Nat) (h : hp.Nodup) : (heapAdd hp id).Nodup := by
  unfold heapAdd
  split
  · exact h
  · next hc =>
    refine List.Nodup.append h (List.nodup_singleton _) ?_
    intro a ha hb
    have hab : a = id := by simpa using hb
    subst hab
    exact hc ha

theorem enqueueChildren_heap_mem (cs : List Nat) (g : EngGraph) (x : Nat) :
    x ∈ (enqueueChildren g cs).heap → x ∈ g.heap ∨ x ∈ cs := by
  induction cs generalizing g with
  | nil => exact fun h => Or.inl h
  | cons c cs ih =>
    intro hx
    have hx2 : x ∈ (enqueueChildren (match lookupN g.nodes c with
        | some cn => if necessaryB cn then { g with heap := heapAdd g.heap c } else g
        | none => g) cs).heap := hx
    cases hc : lookupN g.nodes c with
    | none =>
      rw [hc] at hx2
      dsimp only at hx2
      rcases ih _ hx2 with h1 | h1
      · exact Or.inl h1
      · exact Or.inr (List.mem_cons_of_mem c h1)
    | some cn =>
      rw [hc] at hx2
      dsimp only at hx2
      by_cases hnec : necessaryB cn = true
      · rw [if_pos hnec] at hx2
        rcases ih _ hx2 with h1 | h1
        · rcases heapAdd_mem g.heap c x h1 with h2 | h2
          · exact Or.inl h2
          · exact Or.inr (h2 ▸ List.mem_cons_self c cs)
        · exact Or.inr (List.mem_cons_of_mem c h1)
      · rw [if_neg hnec] at hx2
        rcases ih _ hx2 with h1 | h1
        · exact Or.inl h1
        · exact Or.inr (List.mem_cons_of_mem c h1)

theorem enqueueChildren_heap_nodup (cs : List Nat) (g : EngGraph)
    (h : g.heap.Nodup) : (enqueueChildren g cs).heap.Nodup := by
  induction cs generalizing g with
  | nil => exact h
  | cons c cs ih =>
    show ((enqueueChildren (match lookupN g.nodes c with
        | some cn => if necessaryB cn then { g with heap := heapAdd g.heap c } else g
        | none => g) cs)).heap.Nodup
    cases hc : lookupN g.nodes c with
    | none =>
      dsimp only
      exact ih g h
    | some cn =>
      dsimp only
      by_cases hnec : necessaryB cn = true
      · rw [if_pos hnec]
        exact ih _ (heapAdd_nodup g.heap c h)
      · rw [if_neg hnec]
        exact ih g h

theorem enqueueChildren_heap_mem_of_mem (cs : List Nat) (g : EngGraph) (x : Nat)
    (h : x ∈ g.heap) : x ∈ (enqueueChildren g cs).heap := by
  induction cs generalizing g with
  | nil => exact h
  | cons c cs ih =>
    show x ∈ ((enqueueChildren (match lookupN g.nodes c with
        | some cn => if necessaryB cn then { g with heap := heapAdd g.heap c } else g
        | none => g) cs)).heap
    cases hc : lookupN g.nodes c with
    | none =>
      dsimp only
      exact ih g h
    | some cn =>
      dsimp only
      by_cases hnec : necessaryB cn = true
      · rw [if_pos hnec]
        exact ih _ (heapAdd_mem_of_mem g.heap c x h)
      · rw [if_neg hnec]
        exact ih g h

theorem foldl_min_le_init (l : List Nat) (a : Nat) : l.foldl Nat.min a ≤ a := by
  induction l generalizing a with
  | nil => exact Nat.le_refl a
  | cons z zs ih =>
    show zs.foldl Nat.min (Nat.min a z) ≤ a
    exact Nat.le_trans (ih (Nat.min a z)) (Nat.min_le_left a z)

theorem listMin_le (l : List Nat) (x : Nat) (hx : x ∈ l) : listMin l ≤ x := by
  cases l with
  | nil => cases hx
  | cons y ys =>
    show ys.foldl Nat.min y ≤ x
    rcases List.mem_cons.mp hx with rfl | hmem
    · exact foldl_min_le_init ys x
    · clear hx
      induction ys generalizing y with
      | nil => cases hmem
      | cons z zs ih =>
        show zs.foldl Nat.min (Nat.min y z) ≤ x
        rcases List.mem_cons.mp hmem with rfl | hmem2
        · exact Nat.le_trans (foldl_min_le_init zs (Nat.min y x)) (Nat.min_le_right y x)
        · exact ih (Nat.min y z) hmem2

theorem removeMinE_some (g : EngGraph) (id : Nat) (g1 : EngGraph)
    (h : removeMinE g = some (id, g1)) :
    id ∈ g.heap ∧ g1 = { g with heap := g.heap.erase id } ∧
    (∀ j ∈ g.heap, heightOfN g.nodes id ≤ heightOfN g.nodes j) := by
  unfold removeMinE at h
  cases hf : g.heap.find?
      (fun i => heightOfN g.nodes i == listMin (g.heap.map (heightOfN g.nodes))) with
  | none =>
    rw [hf] at h
    cases h
  | some i =>
    rw [hf] at h
    have h2 := Option.some.inj h
    have hid : i = id := congrArg Prod.fst h2
    have hg : ({ g with heap := g.heap.erase i } : EngGraph) = g1 := congrArg Prod.snd h2
    subst hid
    have hmem : i ∈ g.heap := List.mem_of_find?_eq_some hf
    have hpred := List.find?_some (p := fun j : Nat =>
      heightOfN g.nodes j == listMin (g.heap.map (heightOfN g.nodes))) hf
    have hpred2 : heightOfN g.nodes i = listMin (g.heap.map (heightOfN g.nodes)) :=
      eq_of_beq hpred
    refine ⟨hmem, hg.symm, ?_⟩
    intro j hj
    rw [hpred2]
    exact listMin_le _ _ (List.mem_map.mpr ⟨j, hj, rfl⟩)

theorem stabilizeLoop_succ (s fuel : Nat) (g : EngGraph) (log : List Nat) :
    stabilizeLoop s (fuel + 1) g log =
      (match removeMinE g with
      | none => (g, none, log)
      | some (id, g1) =>
        match lookupN g1.nodes id with
        | none => stabilizeLoop s fuel g1 log
        | some n =>
          if necessaryB n = false then stabilizeLoop s fuel g1 log
          else
            match n.kind with
            | .errNode code =>
              let g2 := updateNode g1 id (bumpError s)
              let g3 : EngGraph :=
                { g2 with
                  errLog := g2.errLog ++ n.onError.map (fun l => (l, code))
                  heap := heapAdd g2.heap id }
              (g3, some (.nodeError id code), log ++ [id])
            | _ =>
              let newV := computeValue g1.nodes n
              let changed := newV ≠ n.value
              let g2 := updateNode g1 id (bumpRecompute s newV changed)
              let g3 := if changed then enqueueChildren g2 n.children else g2
              stabilizeLoop s fuel g3 (log ++ [id])) := rfl

theorem isSome_after_updateNode (g1 : EngGraph) (id x : Nat) (f : EngNode → EngNode)
    (hid : ∀ n, (f n).id = n.id) (hx : (lookupN g1.nodes x).isSome = true) :
    (lookupN (updateNode g1 id f).nodes x).isSome = true := by
  rw [lookupN_updateNode g1 id x f hid]
  cases hc : lookupN g1.nodes x with
  | none =>
    rw [hc] at hx
    cases hx
  | some m => rfl

theorem stabilizeLoop_frame (s : Nat) (fuel : Nat) : ∀ (g : EngGraph) (log : List Nat),
    (stabilizeLoop s fuel g log).1.setDuring = g.setDuring ∧
    (stabilizeLoop s fuel g log).1.stabilizationNum = g.stabilizationNum ∧
    (stabilizeLoop s fuel g log).1.stabilizing = g.stabilizing ∧
    (∀ x, (lookupN g.nodes x).isSome = true →
      (lookupN (stabilizeLoop s fuel g log).1.nodes x).isSome = true) := by
  induction fuel with
  | zero => exact fun g log => ⟨rfl, rfl, rfl, fun x hx => hx⟩
  | succ fuel ih =>
    intro g log
    rw [stabilizeLoop_succ]
    cases hrm : removeMinE g with
    | none => exact ⟨rfl, rfl, rfl, fun x hx => hx⟩
    | some pr =>
      obtain ⟨id, g1⟩ := pr
      dsimp only
      obtain ⟨hmem, hg1, hmin⟩ := removeMinE_some g id g1 hrm
      have hg1n : g1.nodes = g.nodes := by rw [hg1]
      have hg1sd : g1.setDuring = g.setDuring := by rw [hg1]
      have hg1sn : g1.stabilizationNum = g.stabilizationNum := by rw [hg1]
      have hg1st : g1.stabilizing = g.stabilizing := by rw [hg1]
      have hrec : ∀ (G : EngGraph) (L : List Nat),
          G.setDuring = g.setDuring → G.stabilizationNum = g.stabilizationNum →
          G.stabilizing = g.stabilizing →
          (∀ x, (lookupN g.nodes x).isSome = true →
            (lookupN G.nodes x).isSome = true) →
          (stabilizeLoop s fuel G L).1.setDuring = g.setDuring ∧
          (stabilizeLoop s fuel G L).1.stabilizationNum = g.stabilizationNum ∧
          (stabilizeLoop s fuel G L).1.stabilizing = g.stabilizing ∧
          (∀ x, (lookupN g.nodes x).isSome = true →
            (lookupN (stabilizeLoop s fuel G L).1.nodes x).isSome = true) := by
        intro G L h1 h2 h3 h4
        obtain ⟨i1, i2, i3, i4⟩ := ih G L
        exact ⟨i1.trans h1, i2.trans h2, i3.trans h3, fun x hx => i4 x (h4 x hx)⟩
      cases hlk : lookupN g1.nodes id with
      | none =>
        exact hrec g1 log hg1sd hg1sn hg1st (fun x hx => by rw [hg1n]; exact hx)
      | some n =>
        dsimp only
        by_cases hnec : necessaryB n = false
        · rw [if_pos hnec]
          exact hrec g1 log hg1sd hg1sn hg1st (fun x hx => by rw [hg1n]; exact hx)
        · rw [if_neg hnec]
          have hnormal : ∀ G3 : EngGraph,
              (G3 = enqueueChildren (updateNode g1 id (bumpRecompute s
                  (computeValue g1.nodes n) (decide (computeValue g1.nodes n ≠ n.value))))
                  n.children ∨
               G3 = updateNode g1 id (bumpRecompute s (computeValue g1.nodes n)
                  (decide (computeValue g1.nodes n ≠ n.value)))) →
              G3.setDuring = g.setDuring ∧ G3.stabilizationNum = g.stabilizationNum ∧
              G3.stabilizing = g.stabilizing ∧
              (∀ x, (lookupN g.nodes x).isSome = true →
                (lookupN G3.nodes x).isSome = true) := by
            intro G3 hG3
            have hup : ∀ x, (lookupN g.nodes x).isSome = true →
                (lookupN (updateNode g1 id (bumpRecompute s (computeValue g1.nodes n)
                  (decide (computeValue g1.nodes n ≠ n.value)))).nodes x).isSome = true := by
              intro x hx
              exact isSome_after_updateNode g1 id x _ (bumpRecompute_id _ _ _)
                (by rw [hg1n]; exact hx)
            rcases hG3 with rfl | rfl
            · refine ⟨((enqueueChildren_frame _ _).2.1).trans hg1sd,
                ((enqueueChildren_frame _ _).2.2.1).trans hg1sn,
                ((enqueueChildren_frame _ _).2.2.2.2).trans hg1st, ?_⟩
              intro x hx
              rw [(enqueueChildren_frame _ _).1]
              exact hup x hx
            · exact ⟨hg1sd, hg1sn, hg1st, hup⟩
          cases hk : n.kind with
          | errNode code =>
            dsimp only
            refine ⟨hg1sd, hg1sn, hg1st, ?_⟩
            intro x hx
            exact isSome_after_updateNode g1 id x _ (bumpError_id s) (by rw [hg1n]; exact hx)
          | varNode =>
            dsimp only
            apply hrec
            · split
              · exact (hnormal _ (Or.inl rfl)).1
              · exact (hnormal _ (Or.inr rfl)).1
            · split
              · exact (hnormal _ (Or.inl rfl)).2.1
              · exact (hnormal _ (Or.inr rfl)).2.1
            · split
              · exact (hnormal _ (Or.inl rfl)).2.2.1
              · exact (hnormal _ (Or.inr rfl)).2.2.1
            · intro x hx
              split
              · exact (hnormal _ (Or.inl rfl)).2.2.2 x hx
              · exact (hnormal _ (Or.inr rfl)).2.2.2 x hx
          | mapNode =>
            dsimp only
            apply hrec
            · split
              · exact (hnormal _ (Or.inl rfl)).1
              · exact (hnormal _ (Or.inr rfl)).1
            · split
              · exact (hnormal _ (Or.inl rfl)).2.1
              · exact (hnormal _ (Or.inr rfl)).2.1
            · split
              · exact (hnormal _ (Or.inl rfl)).2.2.1
              · exact (hnormal _ (Or.inr rfl)).2.2.1
            · intro x hx
              split
              · exact (hnormal _ (Or.inl rfl)).2.2.2 x hx
              · exact (hnormal _ (Or.inr rfl)).2.2.2 x hx

theorem lookupN_some_id (ns : List EngNode) (x : Nat) (n : EngNode)
    (h : lookupN ns x = some n) : n.id = x := by
  have h2 : ns.find? (fun m => m.id == x) = some n := h
  have h3 := List.find?_some (p := fun m : EngNode => m.id == x) h2
  have h4 : (n.id == x) = true := h3
  exact eq_of_beq h4

/-- C9: at most one stabilization may be active per graph: a Stabilize call on
a graph whose stabilizing flag is already set returns the AlreadyStabilizing
error, leaves the graph state untouched and invokes no node (empty log). -/
theorem stabilize_rejects_concurrent (fuel : Nat) (g : EngGraph)
    (h : g.stabilizing = true) :
    stabilize fuel g = (g, some .alreadyStabilizing, []) := by
  unfold stabilize
  rw [if_pos h]

/-- A graph that is mid-stabilization, used as the C9 witness input. -/
def busyGraph : EngGraph :=
  { nodes := [], heap := [], stabilizing := true, stabilizationNum := 3,
    setDuring := [], errLog := [] }

/-- Witness for C9 at a concrete mid-stabilization graph. -/
theorem stabilize_rejects_concurrent_witness :
    stabilize 5 busyGraph = (busyGraph, some .alreadyStabilizing, []) :=
  stabilize_rejects_concurrent 5 busyGraph rfl

/-- C7: Var.Set while a stabilization is in progress does not overwrite the
live value mid-pass: it only queues the write (nodes, heap and all values are
untouched, so Value() still reads the old value).  Once the pass that queued
the write completes, the var holds the new value, its setAt equals the pass's
stabilizationNum + 1, which is the upcoming stabilization number and equals the
graph's stabilizationNum field after the pass, and the var sits in the
recompute heap for the next pass. -/
theorem var_set_during_stabilization (fuel : Nat) (g : EngGraph) (id : Nat) (v : List Nat)
    (hs : g.stabilizing = false)
    (hq : g.setDuring = [(id, v)])
    (hnode : (lookupN g.nodes id).isSome = true)
    (hok : (stabilize fuel g).2.1 = none) :
    (∀ gm : EngGraph, gm.stabilizing = true →
      (varSet gm id v).nodes = gm.nodes ∧
      (varSet gm id v).heap = gm.heap ∧
      (varSet gm id v).setDuring = gm.setDuring ++ [(id, v)]) ∧
    (lookupN (stabilize fuel g).1.nodes id).map EngNode.value = some v ∧
    (lookupN (stabilize fuel g).1.nodes id).map EngNode.setAt = some (g.stabilizationNum + 1) ∧
    (stabilize fuel g).1.stabilizationNum = g.stabilizationNum + 1 ∧
    id ∈ (stabilize fuel g).1.heap := by
  constructor
  · intro gm hgm
    unfold varSet
    rw [if_pos hgm]
    exact ⟨rfl, rfl, rfl⟩
  · have hframe := stabilizeLoop_frame g.stabilizationNum fuel
      { g with stabilizing := true } []
    have hcond : ¬(g.stabilizing = true) := by
      rw [hs]
      exact Bool.false_ne_true
    unfold stabilize at hok ⊢
    rw [if_neg hcond] at hok ⊢
    cases hloop : stabilizeLoop g.stabilizationNum fuel { g with stabilizing := true } [] with
    | mk g2 p =>
      cases p with
      | mk err log =>
        rw [hloop] at hok hframe
        cases err with
        | some e =>
          dsimp only at hok
          cases hok
        | none =>
          dsimp only
          obtain ⟨hsd, hsn, hst, hlkpres⟩ := hframe
          have hsd2 : g2.setDuring = [(id, v)] := by
            rw [hsd]
            exact hq
          have hsome : (lookupN g2.nodes id).isSome = true := by
            apply hlkpres
            show (lookupN g.nodes id).isSome = true
            exact hnode
          have hg3sd : ({ g2 with stabilizationNum := g.stabilizationNum + 1 } :
              EngGraph).setDuring = [(id, v)] := hsd2
          have happ : applyDeferred { g2 with stabilizationNum := g.stabilizationNum + 1 } =
              (let acc2 := updateNode
                { g2 with stabilizationNum := g.stabilizationNum + 1 } id
                (fun m => { m with value := v, pending := v, setAt := g.stabilizationNum + 1 })
               { acc2 with heap := heapAdd acc2.heap id }) := by
            unfold applyDeferred
            rw [hg3sd]
            rfl
          rw [happ]
          dsimp only
          obtain ⟨m, hm⟩ := Option.isSome_iff_exists.mp hsome
          have hmid : m.id = id := lookupN_some_id g2.nodes id m hm
          have hlk2 : lookupN ({ g2 with stabilizationNum :=
              g.stabilizationNum + 1 } : EngGraph).nodes id = some m := hm
          have hupd : lookupN (updateNode
              { g2 with stabilizationNum := g.stabilizationNum + 1 } id
              (fun m2 => { m2 with value := v, pending := v, setAt := g.stabilizationNum + 1 })).nodes id =
              some { m with value := v, pending := v, setAt := g.stabilizationNum + 1 } := by
            rw [lookupN_updateNode ({ g2 with stabilizationNum := g.stabilizationNum + 1 })
              id id
              (fun m2 => { m2 with value := v, pending := v, setAt := g.stabilizationNum + 1 })
              (fun n => rfl), hlk2]
            simp [hmid]
          refine ⟨?_, ?_, rfl, ?_⟩
          · show (lookupN (updateNode _ _ _).nodes id).map EngNode.value = some v
            rw [hupd]
            rfl
          · show (lookupN (updateNode _ _ _).nodes id).map EngNode.setAt =
              some (g.stabilizationNum + 1)
            rw [hupd]
            rfl
          · exact heapAdd_mem_self _ id

/-- A var node for concrete engine scenarios. -/
def mkVar (id h : Nat) (cs : List Nat) (v : List Nat) : EngNode :=
  { id := id, height := h, kind := .varNode, parents := [], children := cs,
    observers := [99], value := v, pending := v, setAt := 0, changedAt := 0,
    recomputedAt := 0, numRecomputes := 0, onError := [] }

/-- A map node for concrete engine scenarios. -/
def mkMap (id h : Nat) (ps cs : List Nat) : EngNode :=
  { id := id, height := h, kind := .mapNode, parents := ps, children := cs,
    observers := [99], value := [], pending := [], setAt := 0, changedAt := 0,
    recomputedAt := 0, numRecomputes := 0, onError := [] }

/-- A failing node for concrete engine scenarios. -/
def mkErr (id h code : Nat) (ls : List Nat) : EngNode :=
  { id := id, height := h, kind := .errNode code, parents := [], children := [],
    observers := [99], value := [], pending := [], setAt := 0, changedAt := 0,
    recomputedAt := 0, numRecomputes := 0, onError := ls }

/-- The C7 witness graph: one var (id 1) holding value 10, with a Var.Set to 11
queued during the pass about to complete. -/
def c7graph : EngGraph :=
  { nodes := [mkVar 1 0 [] [10]], heap := [], stabilizing := false,
    stabilizationNum := 1, setDuring := [(1, [11])], errLog := [] }

/-- Witness for C7: after the pass, the var holds 11, setAt is 2 (the upcoming
stabilization number, equal to the graph's stabilizationNum field), and the var
is enqueued for the next pass. -/
theorem var_set_during_stabilization_witness :
    (lookupN (stabilize 5 c7graph).1.nodes 1).map EngNode.value = some [11] ∧
    (lookupN (stabilize 5 c7graph).1.nodes 1).map EngNode.setAt = some 2 ∧
    (stabilize 5 c7graph).1.stabilizationNum = 2 ∧
    1 ∈ (stabilize 5 c7graph).1.heap := by
  simpa using (var_set_during_stabilization 5 c7graph 1 [11] rfl rfl (by decide)
    (by decide)).2

theorem stabilizeLoop_error (s : Nat) (fuel : Nat) :
    ∀ (g : EngGraph) (log log' : List Nat) (g' : EngGraph) (id code : Nat),
    stabilizeLoop s fuel g log = (g', some (.nodeError id code), log') →
    (∃ n, lookupN g'.nodes id = some n ∧ n.kind = .errNode code ∧
      (∀ l ∈ n.onError, (l, code) ∈ g'.errLog)) ∧ id ∈ g'.heap := by
  induction fuel with
  | zero =>
    intro g log log' g' id code h
    rw [show stabilizeLoop s 0 g log = (g, none, log) from rfl] at h
    have h2 := congrArg (fun t : EngGraph × Option EngError × List Nat => t.2.1) h
    simp at h2
  | succ fuel ih =>
    intro g log log' g' id code h
    rw [stabilizeLoop_succ] at h
    cases hrm : removeMinE g with
    | none =>
      rw [hrm] at h
      have h2 := congrArg (fun t : EngGraph × Option EngError × List Nat => t.2.1) h
      simp at h2
    | some pr =>
      obtain ⟨pid, g1⟩ := pr
      rw [hrm] at h
      dsimp only at h
      cases hlk : lookupN g1.nodes pid with
      | none =>
        rw [hlk] at h
        dsimp only at h
        exact ih g1 log log' g' id code h
      | some n =>
        rw [hlk] at h
        dsimp only at h
        by_cases hnec : necessaryB n = false
        · rw [if_pos hnec] at h
          exact ih g1 log log' g' id code h
        · rw [if_neg hnec] at h
          cases hk : n.kind with
          | errNode code2 =>
            rw [hk] at h
            dsimp only at h
            have hg := congrArg (fun t : EngGraph × Option EngError × List Nat => t.1) h
            have he := congrArg (fun t : EngGraph × Option EngError × List Nat => t.2.1) h
            dsimp only at hg he
            have hinj := EngError.nodeError.inj (Option.some.inj he)
            obtain ⟨hpid, hcode⟩ := hinj
            subst hpid
            subst hcode
            rw [← hg]
            have hnid : n.id = pid := lookupN_some_id g1.nodes pid n hlk
            refine ⟨⟨bumpError s n, ?_, ?_, ?_⟩, ?_⟩
            · show lookupN (updateNode g1 pid (bumpError s)).nodes pid = some (bumpError s n)
              rw [lookupN_updateNode g1 pid pid (bumpError s) (bumpError_id s), hlk]
              simp [hnid]
            · show (bumpError s n).kind = .errNode code2
              show n.kind = .errNode code2
              exact hk
            · intro l hl
              show (l, code2) ∈ (updateNode g1 pid (bumpError s)).errLog ++
                n.onError.map (fun l2 => (l2, code2))
              exact List.mem_append_right _ (List.mem_map.mpr ⟨l, hl, rfl⟩)
            · exact heapAdd_mem_self _ pid
          | varNode =>
            rw [hk] at h
            dsimp only at h
            exact ih _ _ _ _ _ _ h
          | mapNode =>
            rw [hk] at h
            dsimp only at h
            exact ih _ _ _ _ _ _ h

/-- C5: when a node fails during a stabilization pass, the graph's Stabilize
returns that same error (identifying the failing node and its error code,
which is exactly the error the node's compute returned), every onError
listener registered on the failing node is recorded as fired with that error,
and the failing node is back in the recompute heap so the next stabilization
retries it. -/
theorem stabilize_error_propagation (fuel : Nat) (g : EngGraph) (id code : Nat)
    (hs : g.stabilizing = false)
    (herr : (stabilize fuel g).2.1 = some (.nodeError id code)) :
    (∃ n, lookupN (stabilize fuel g).1.nodes id = some n ∧ n.kind = .errNode code ∧
      (∀ l ∈ n.onError, (l, code) ∈ (stabilize fuel g).1.errLog)) ∧
    id ∈ (stabilize fuel g).1.heap := by
  have hcond : ¬(g.stabilizing = true) := by
    rw [hs]
    exact Bool.false_ne_true
  unfold stabilize at herr ⊢
  rw [if_neg hcond] at herr ⊢
  cases hloop : stabilizeLoop g.stabilizationNum fuel { g with stabilizing := true } [] with
  | mk g2 p =>
    cases p with
    | mk err log =>
      rw [hloop] at herr
      cases err with
      | some e =>
        dsimp only at herr
        have he : e = .nodeError id code := Option.some.inj herr
        subst he
        have hmain := stabilizeLoop_error g.stabilizationNum fuel
          { g with stabilizing := true } [] log g2 id code hloop
        exact hmain
      | none =>
        exfalso
        dsimp only at herr
        cases herr

/-- The C5 witness graph: one failing node (id 1, error code 5) with the
onError listeners 70 and 71, sitting in the recompute heap. -/
def c5graph : EngGraph :=
  { nodes := [mkErr 1 0 5 [70, 71]], heap := [1], stabilizing := false,
    stabilizationNum := 1, setDuring := [], errLog := [] }

/-- Witness for C5 at the concrete failing graph. -/
theorem stabilize_error_propagation_witness :
    (∃ n, lookupN (stabilize 5 c5graph).1.nodes 1 = some n ∧ n.kind = .errNode 5 ∧
      (∀ l ∈ n.onError, (l, 5) ∈ (stabilize 5 c5graph).1.errLog)) ∧
    1 ∈ (stabilize 5 c5graph).1.heap :=
  stabilize_error_propagation 5 c5graph 1 5 rfl (by decide)

/-- Height validity of the dependency edges: every child (dependent) sits
strictly above its parent. -/
def childHeightsOkB (ns : List EngNode) : Bool :=
  ns.all (fun n => n.children.all (fun c =>
    match lookupN ns c with
    | some cn => decide (n.height < cn.height)
    | none => false))

theorem childOk_spec (ns : List EngNode) (hch : childHeightsOkB ns = true)
    (id : Nat) (n : EngNode) (hlk : lookupN ns id = some n) (c : Nat)
    (hc : c ∈ n.children) :
    heightOfN ns id < heightOfN ns c := by
  have hn : n ∈ ns := List.mem_of_find?_eq_some hlk
  have h1 := (List.all_eq_true.mp hch) n hn
  have h2 := (List.all_eq_true.mp h1) c hc
  unfold heightOfN
  rw [hlk]
  cases hlc : lookupN ns c with
  | none =>
    rw [hlc] at h2
    cases h2
  | some cn =>
    rw [hlc] at h2
    exact of_decide_eq_true h2

theorem list_all_congr {α : Type} (l : List α) (p q : α → Bool)
    (h : ∀ x ∈ l, p x = q x) : l.all p = l.all q := by
  induction l with
  | nil => rfl
  | cons x xs ih =>
    simp only [List.all_cons]
    rw [h x (List.mem_cons_self x xs), ih (fun y hy => h y (List.mem_cons_of_mem x hy))]

theorem childOk_updateNode (g : EngGraph) (id : Nat) (f : EngNode → EngNode)
    (hid : ∀ n, (f n).id = n.id) (hht : ∀ n, (f n).height = n.height)
    (hchl : ∀ n, (f n).children = n.children) :
    childHeightsOkB (updateNode g id f).nodes = childHeightsOkB g.nodes := by
  have hid2 := updateNode_f_id id f hid
  have hht2 : ∀ n : EngNode, ((fun m => if m.id == id then f m else m) n).height = n.height := by
    intro n
    dsimp only
    split
    · exact hht n
    · rfl
  have hchl2 : ∀ n : EngNode,
      ((fun m => if m.id == id then f m else m) n).children = n.children := by
    intro n
    dsimp only
    split
    · exact hchl n
    · rfl
  show childHeightsOkB (g.nodes.map (fun m => if m.id == id then f m else m)) = _
  unfold childHeightsOkB
  rw [List.all_map]
  have hfun : ((fun n => n.children.all (fun c =>
      match lookupN (g.nodes.map (fun m => if m.id == id then f m else m)) c with
      | some cn => decide (n.height < cn.height)
      | none => false)) ∘ (fun m => if m.id == id then f m else m)) =
      (fun n => n.children.all (fun c =>
      match lookupN g.nodes c with
      | some cn => decide (n.height < cn.height)
      | none => false)) := by
    funext n
    show ((fun m => if m.id == id then f m else m) n).children.all _ = n.children.all _
    rw [hchl2 n]
    apply list_all_congr
    intro c _
    rw [lookupN_map_preserve g.nodes c _ hid2]
    cases hlc : lookupN g.nodes c with
    | none => rfl
    | some cn =>
      dsimp only [Option.map]
      rw [hht2 n, hht2 cn]
  rw [hfun]

theorem stabilizeLoop_log_nodup (s : Nat) (fuel : Nat) :
    ∀ (g : EngGraph) (log : List Nat) (B : Nat),
    g.heap.Nodup →
    log.Nodup →
    (∀ i ∈ log, i ∉ g.heap) →
    (∀ i ∈ log, heightOfN g.nodes i ≤ B) →
    (∀ j ∈ g.heap, B ≤ heightOfN g.nodes j) →
    childHeightsOkB g.nodes = true →
    ((stabilizeLoop s fuel g log).2.2).Nodup := by
  induction fuel with
  | zero =>
    intro g log B h1 h2 _ _ _ _
    exact h2
  | succ fuel ih =>
    intro g log B hnd hlognd hdisj hlogle hheapge hch
    rw [stabilizeLoop_succ]
    cases hrm : removeMinE g with
    | none => exact hlognd
    | some pr =>
      obtain ⟨id, g1⟩ := pr
      dsimp only
      obtain ⟨hmem, hg1, hmin⟩ := removeMinE_some g id g1 hrm
      have hg1n : g1.nodes = g.nodes := by rw [hg1]
      have hg1h : g1.heap = g.heap.erase id := by rw [hg1]
      have hnd1 : g1.heap.Nodup := by
        rw [hg1h]
        exact hnd.erase id
      have hidnotin : id ∉ g1.heap := by
        rw [hg1h]
        exact hnd.not_mem_erase
      have hsub1 : ∀ x ∈ g1.heap, x ∈ g.heap := by
        rw [hg1h]
        exact fun x hx => List.mem_of_mem_erase hx
      have hskip : ((stabilizeLoop s fuel g1 log).2.2).Nodup := by
        apply ih g1 log B hnd1 hlognd
        · intro i hi hcon
          exact hdisj i hi (hsub1 i hcon)
        · intro i hi
          rw [hg1n]
          exact hlogle i hi
        · intro j hj
          rw [hg1n]
          exact hheapge j (hsub1 j hj)
        · rw [hg1n]
          exact hch
      cases hlk : lookupN g1.nodes id with
      | none => exact hskip
      | some n =>
        dsimp only
        by_cases hnec : necessaryB n = false
        · rw [if_pos hnec]
          exact hskip
        · rw [if_neg hnec]
          have hidlog : id ∉ log := fun hc => hdisj id hc hmem
          have hlogid : (log ++ [id]).Nodup := by
            refine List.Nodup.append hlognd (List.nodup_singleton _) ?_
            intro a ha hb
            have hab : a = id := by simpa using hb
            subst hab
            exact hidlog ha
          have hBh0 : B ≤ heightOfN g.nodes id := hheapge id hmem
          have hlkg : lookupN g.nodes id = some n := by
            rw [← hg1n]
            exact hlk
          have hchild_gt : ∀ c ∈ n.children,
              heightOfN g.nodes id < heightOfN g.nodes c := by
            intro c hc
            exact childOk_spec g.nodes hch id n hlkg c hc
          cases hk : n.kind with
          | errNode code =>
            dsimp only
            exact hlogid
          | varNode =>
            dsimp only
            refine ih _ _ (heightOfN g.nodes id) ?_ hlogid ?_ ?_ ?_ ?_
            · -- heap nodup
              split
              · exact enqueueChildren_heap_nodup _ _ hnd1
              · exact hnd1
            · -- disjointness of the new log from the new heap
              intro i hi hcon
              have hi2 : i ∈ log ∨ i = id := by
                rcases List.mem_append.mp hi with h1 | h1
                · exact Or.inl h1
                · exact Or.inr (by simpa using h1)
              have hcon2 : i ∈ g1.heap ∨ i ∈ n.children := by
                revert hcon
                split
                · intro hcon
                  rcases enqueueChildren_heap_mem _ _ _ hcon with h1 | h1
                  · exact Or.inl h1
                  · exact Or.inr h1
                · intro hcon
                  exact Or.inl hcon
              rcases hi2 with hi3 | hi3
              · rcases hcon2 with h4 | h4
                · exact hdisj i hi3 (hsub1 i h4)
                · have hgt := hchild_gt i h4
                  have hle := hlogle i hi3
                  omega
              · subst hi3
                rcases hcon2 with h4 | h4
                · exact hidnotin h4
                · have hgt := hchild_gt i h4
                  omega
            · -- new log heights bounded by the popped height
              intro i hi
              have hi2 : i ∈ log ∨ i = id := by
                rcases List.mem_append.mp hi with h1 | h1
                · exact Or.inl h1
                · exact Or.inr (by simpa using h1)
              have hnodes : ∀ x, heightOfN (if (computeValue g1.nodes n ≠ n.value : Prop) then
                  enqueueChildren (updateNode g1 id (bumpRecompute s (computeValue g1.nodes n)
                    (decide (computeValue g1.nodes n ≠ n.value)))) n.children
                  else updateNode g1 id (bumpRecompute s (computeValue g1.nodes n)
                    (decide (computeValue g1.nodes n ≠ n.value)))).nodes x =
                  heightOfN g.nodes x := by
                intro x
                split
                · rw [(enqueueChildren_frame _ _).1]
                  rw [heightOfN_updateNode g1 id x _ (bumpRecompute_id _ _ _)
                    (fun m => rfl), hg1n]
                · rw [heightOfN_updateNode g1 id x _ (bumpRecompute_id _ _ _)
                    (fun m => rfl), hg1n]
              rw [hnodes i]
              rcases hi2 with hi3 | hi3
              · exact Nat.le_trans (hlogle i hi3) hBh0
              · subst hi3
                exact Nat.le_refl _
            · -- new heap heights at least the popped height
              intro j hj
              have hcon2 : j ∈ g1.heap ∨ j ∈ n.children := by
                revert hj
                split
                · intro hj
                  rcases enqueueChildren_heap_mem _ _ _ hj with h1 | h1
                  · exact Or.inl h1
                  · exact Or.inr h1
                · intro hj
                  exact Or.inl hj
              have hnodes : ∀ x, heightOfN (if (computeValue g1.nodes n ≠ n.value : Prop) then
                  enqueueChildren (updateNode g1 id (bumpRecompute s (computeValue g1.nodes n)
                    (decide (computeValue g1.nodes n ≠ n.value)))) n.children
                  else updateNode g1 id (bumpRecompute s (computeValue g1.nodes n)
                    (decide (computeValue g1.nodes n ≠ n.value)))).nodes x =
                  heightOfN g.nodes x := by
                intro x
                split
                · rw [(enqueueChildren_frame _ _).1]
                  rw [heightOfN_updateNode g1 id x _ (bumpRecompute_id _ _ _)
                    (fun m => rfl), hg1n]
                · rw [heightOfN_updateNode g1 id x _ (bumpRecompute_id _ _ _)
                    (fun m => rfl), hg1n]
              rw [hnodes j]
              rcases hcon2 with h4 | h4
              · exact hmin j (hsub1 j h4)
              · exact Nat.le_of_lt (hchild_gt j h4)
            · -- child heights stay valid
              split
              · rw [(enqueueChildren_frame _ _).1]
                rw [childOk_updateNode g1 id _ (bumpRecompute_id _ _ _)
                  (fun m => rfl) (fun m => rfl), hg1n]
                exact hch
              · rw [childOk_updateNode g1 id _ (bumpRecompute_id _ _ _)
                  (fun m => rfl) (fun m => rfl), hg1n]
                exact hch
          | mapNode =>
            dsimp only
            refine ih _ _ (heightOfN g.nodes id) ?_ hlogid ?_ ?_ ?_ ?_
            · split
              · exact enqueueChildren_heap_nodup _ _ hnd1
              · exact hnd1
            · intro i hi hcon
              have hi2 : i ∈ log ∨ i = id := by
                rcases List.mem_append.mp hi with h1 | h1
                · exact Or.inl h1
                · exact Or.inr (by simpa using h1)
              have hcon2 : i ∈ g1.heap ∨ i ∈ n.children := by
                revert hcon
                split
                · intro hcon
                  rcases enqueueChildren_heap_mem _ _ _ hcon with h1 | h1
                  · exact Or.inl h1
                  · exact Or.inr h1
                · intro hcon
                  exact Or.inl hcon
              rcases hi2 with hi3 | hi3
              · rcases hcon2 with h4 | h4
                · exact hdisj i hi3 (hsub1 i h4)
                · have hgt := hchild_gt i h4
                  have hle := hlogle i hi3
                  omega
              · subst hi3
                rcases hcon2 with h4 | h4
                · exact hidnotin h4
                · have hgt := hchild_gt i h4
                  omega
            · intro i hi
              have hi2 : i ∈ log ∨ i = id := by
                rcases List.mem_append.mp hi with h1 | h1
                · exact Or.inl h1
                · exact Or.inr (by simpa using h1)
              have hnodes : ∀ x, heightOfN (if (computeValue g1.nodes n ≠ n.value : Prop) then
                  enqueueChildren (updateNode g1 id (bumpRecompute s (computeValue g1.nodes n)
                    (decide (computeValue g1.nodes n ≠ n.value)))) n.children
                  else updateNode g1 id (bumpRecompute s (computeValue g1.nodes n)
                    (decide (computeValue g1.nodes n ≠ n.value)))).nodes x =
                  heightOfN g.nodes x := by
                intro x
                split
                · rw [(enqueueChildren_frame _ _).1]
                  rw [heightOfN_updateNode g1 id x _ (bumpRecompute_id _ _ _)
                    (fun m => rfl), hg1n]
                · rw [heightOfN_updateNode g1 id x _ (bumpRecompute_id _ _ _)
                    (fun m => rfl), hg1n]
              rw [hnodes i]
              rcases hi2 with hi3 | hi3
              · exact Nat.le_trans (hlogle i hi3) hBh0
              · subst hi3
                exact Nat.le_refl _
            · intro j hj
              have hcon2 : j ∈ g1.heap ∨ j ∈ n.children := by
                revert hj
                split
                · intro hj
                  rcases enqueueChildren_heap_mem _ _ _ hj with h1 | h1
                  · exact Or.inl h1
                  · exact Or.inr h1
                · intro hj
                  exact Or.inl hj
              have hnodes : ∀ x, heightOfN (if (computeValue g1.nodes n ≠ n.value : Prop) then
                  enqueueChildren (updateNode g1 id (bumpRecompute s (computeValue g1.nodes n)
                    (decide (computeValue g1.nodes n ≠ n.value)))) n.children
                  else updateNode g1 id (bumpRecompute s (computeValue g1.nodes n)
                    (decide (computeValue g1.nodes n ≠ n.value)))).nodes x =
                  heightOfN g.nodes x := by
                intro x
                split
                · rw [(enqueueChildren_frame _ _).1]
                  rw [heightOfN_updateNode g1 id x _ (bumpRecompute_id _ _ _)
                    (fun m => rfl), hg1n]
                · rw [heightOfN_updateNode g1 id x _ (bumpRecompute_id _ _ _)
                    (fun m => rfl), hg1n]
              rw [hnodes j]
              rcases hcon2 with h4 | h4
              · exact hmin j (hsub1 j h4)
              · exact Nat.le_of_lt (hchild_gt j h4)
            · split
              · rw [(enqueueChildren_frame _ _).1]
                rw [childOk_updateNode g1 id _ (bumpRecompute_id _ _ _)
                  (fun m => rfl) (fun m => rfl), hg1n]
                exact hch
              · rw [childOk_updateNode g1 id _ (bumpRecompute_id _ _ _)
                  (fun m => rfl) (fun m => rfl), hg1n]
                exact hch

theorem stabilize_log (fuel : Nat) (g : EngGraph) :
    (stabilize fuel g).2.2 = if g.stabilizing then [] else
      (stabilizeLoop g.stabilizationNum fuel { g with stabilizing := true } []).2.2 := by
  unfold stabilize
  by_cases hs : g.stabilizing = true
  · rw [if_pos hs, if_pos hs]
  · rw [if_neg hs, if_neg hs]
    cases hloop : stabilizeLoop g.stabilizationNum fuel { g with stabilizing := true } [] with
    | mk g2 p =>
      cases p with
      | mk err log =>
        cases err <;> rfl

/-- The two-path diamond of the repository's recombinant test: var a (id 1)
feeds b (2) and f (5); b feeds c (3) feeds d (4); f feeds e (6); z (7) reads d
and e.  Heights 0,1,1,2,2,3,4; everything observed; the maps are pending their
initial recompute. -/
def diamondGraph : EngGraph :=
  { nodes := [mkVar 1 0 [2, 5] [10], mkMap 2 1 [1] [3], mkMap 3 2 [2] [4],
      mkMap 4 3 [3] [7], mkMap 5 1 [1] [6], mkMap 6 2 [5] [7], mkMap 7 4 [4, 6] []],
    heap := [2, 3, 4, 5, 6, 7], stabilizing := false, stabilizationNum := 1,
    setDuring := [], errLog := [] }

/-- C2: during one stabilization pass, every node's Stabilize is invoked at
most once (the invocation log of the pass has no duplicates), for any graph
whose heap has no duplicate entries and whose dependency edges satisfy the
height invariant, regardless of diamond topology; and concretely on the
two-path diamond, z (id 7) has numRecomputes 1 after the initial pass and
exactly 2 after a.Set and a second pass, each pass invoking every node at most
once. -/
theorem stabilize_at_most_once_diamond (fuel : Nat) (g : EngGraph)
    (hnd : g.heap.Nodup) (hch : childHeightsOkB g.nodes = true) :
    ((stabilize fuel g).2.2).Nodup ∧
    (lookupN (stabilize 30 diamondGraph).1.nodes 7).map EngNode.numRecomputes = some 1 ∧
    ((stabilize 30 diamondGraph).2.2).Nodup ∧
    (lookupN (stabilize 30 (varSet (stabilize 30 diamondGraph).1 1 [11])).1.nodes 7).map
      EngNode.numRecomputes = some 2 ∧
    ((stabilize 30 (varSet (stabilize 30 diamondGraph).1 1 [11])).2.2).Nodup := by
  constructor
  · rw [stabilize_log]
    by_cases hs : g.stabilizing = true
    · rw [if_pos hs]
      exact List.nodup_nil
    · rw [if_neg hs]
      apply stabilizeLoop_log_nodup g.stabilizationNum fuel _ [] 0
      · exact hnd
      · exact List.nodup_nil
      · intro i hi
        cases hi
      · intro i hi
        cases hi
      · intro j hj
        exact Nat.zero_le _
      · exact hch
  · exact ⟨by decide, by decide, by decide, by decide⟩

/-- Witness for C2 at the diamond graph with ample fuel. -/
theorem stabilize_at_most_once_diamond_witness :
    ((stabilize 30 diamondGraph).2.2).Nodup ∧
    (lookupN (stabilize 30 diamondGraph).1.nodes 7).map EngNode.numRecomputes = some 1 ∧
    ((stabilize 30 diamondGraph).2.2).Nodup ∧
    (lookupN (stabilize 30 (varSet (stabilize 30 diamondGraph).1 1 [11])).1.nodes 7).map
      EngNode.numRecomputes = some 2 ∧
    ((stabilize 30 (varSet (stabilize 30 diamondGraph).1 1 [11])).2.2).Nodup :=
  stabilize_at_most_once_diamond 30 diamondGraph (by decide) (by decide)

/-!
Observation bookkeeping, modelled from the spec (section 4.3): Observe creates
an observer (counted in numNodes), adds its identity to the observers set of
every node reachable from the root along parent edges; Unobserve removes that
identity from every node's observers set and removes the observer from the
graph's accounting.
-/

/-- Modelled from the spec: a node as seen by the observation tracker: its
identity, its dependencies, and the set of observer identities it is reachable
from. -/
structure ONode where
  id : Nat
  parents : List Nat
  observers : List Nat
deriving DecidableEq, Repr

/-- Modelled from the spec: the graph's observation accounting. -/
structure OGraph where
  nodes : List ONode
  numNodes : Nat
deriving DecidableEq, Repr

/-- Node lookup by id. -/
def lookupO (ns : List ONode) (id : Nat) : Option ONode :=
  ns.find? (fun n => n.id == id)

/-- Parents of a node, empty for a missing id. -/
def parentsOfO (ns : List ONode) (id : Nat) : List Nat :=
  match lookupO ns id with
  | some n => n.parents
  | none => []

/-- One expansion step of the reachable-set computation: add every parent of a
member that is not yet a member. -/
def reachStep (ns : List ONode) (cur : List Nat) : List Nat :=
  cur.foldl (fun acc id =>
    acc ++ ((parentsOfO ns id).filter (fun p => !acc.contains p))) cur

/-- Iterated expansion. -/
def reachIter (ns : List ONode) : Nat → List Nat → List Nat
  | 0, cur => cur
  | k + 1, cur => reachIter ns k (reachStep ns cur)

/-- Modelled from the spec: the set of nodes observeNodes reaches from the
root along parent edges (iterating one step per node suffices on any graph). -/
def reachSet (ns : List ONode) (root : Nat) : List Nat :=
  reachIter ns ns.length [root]

/-- Modelled from the spec: Observe.  A fresh observer identity oid is added to
the observers set of every reached node, and the observer node itself joins the
graph's node count. -/
def observeG (g : OGraph) (root oid : Nat) : OGraph :=
  { nodes := g.nodes.map (fun n =>
      if (reachSet g.nodes root).contains n.id then
        { n with observers := oid :: n.observers } else n)
    numNodes := g.numNodes + 1 }

/-- Modelled from the spec: Unobserve.  The observer's identity is removed
from every node's observers set and the observer leaves the node count. -/
def unobserveG (g : OGraph) (oid : Nat) : OGraph :=
  { nodes := g.nodes.map (fun n =>
      { n with observers := n.observers.filter (fun o => o != oid) })
    numNodes := g.numNodes - 1 }

/-- Necessity relative to the observation tracker. -/
def isObservingO (g : OGraph) (id : Nat) : Bool :=
  match lookupO g.nodes id with
  | some n => !n.observers.isEmpty
  | none => false

theorem list_map_id_on {α : Type} (l : List α) (f : α → α)
    (h : ∀ x ∈ l, f x = x) : l.map f = l := by
  induction l with
  | nil => rfl
  | cons x xs ih =>
    rw [List.map_cons, h x (List.mem_cons_self x xs),
      ih (fun y hy => h y (List.mem_cons_of_mem x hy))]

/-- C8: observing a node and then unobserving it restores the graph's numNodes
counter and every node's observation state (hence necessity) to exactly the
values they had before the Observe call, provided the observer identity is
fresh. -/
theorem observe_unobserve_roundtrip (g : OGraph) (root oid : Nat)
    (hfresh : ∀ n ∈ g.nodes, oid ∉ n.observers) :
    (unobserveG (observeG g root oid) oid).numNodes = g.numNodes ∧
    (unobserveG (observeG g root oid) oid).nodes = g.nodes ∧
    (∀ id, isObservingO (unobserveG (observeG g root oid) oid) id = isObservingO g id) := by
  have hnodes : (unobserveG (observeG g root oid) oid).nodes = g.nodes := by
    show (g.nodes.map _).map _ = g.nodes
    rw [List.map_map]
    apply list_map_id_on
    intro n hn
    have hobs : n.observers.filter (fun o => o != oid) = n.observers := by
      rw [List.filter_eq_self]
      intro o ho
      simp only [bne_iff_ne, ne_eq, decide_eq_true_eq]
      intro hc
      subst hc
      exact hfresh n hn ho
    show (fun m : ONode => { m with observers := m.observers.filter (fun o => o != oid) })
        (if (reachSet g.nodes root).contains n.id then
          { n with observers := oid :: n.observers } else n) = n
    split
    · show ({ n with observers := (oid :: n.observers).filter (fun o => o != oid) } : ONode) = n
      rw [List.filter_cons]
      simp only [bne_self_eq_false, Bool.false_eq_true, if_false, hobs]
    · show ({ n with observers := n.observers.filter (fun o => o != oid) } : ONode) = n
      rw [hobs]
  refine ⟨Nat.succ_sub_one g.numNodes, hnodes, ?_⟩
  intro id
  unfold isObservingO
  rw [hnodes]

/-- The C8 witness graph: a two-node chain (node 1 reads node 2), no
observers. -/
def c8graph : OGraph :=
  { nodes := [⟨1, [2], []⟩, ⟨2, [], []⟩], numNodes := 2 }

/-- Witness for C8 at the concrete chain with fresh observer id 50. -/
theorem observe_unobserve_roundtrip_witness :
    (unobserveG (observeG c8graph 1 50) 50).numNodes = c8graph.numNodes ∧
    (unobserveG (observeG c8graph 1 50) 50).nodes = c8graph.nodes := by
  have h := observe_unobserve_roundtrip c8graph 1 50 (by decide)
  exact ⟨h.1, h.2.1⟩

end Incr
